import Mathlib

/-!
Verification development for the aavedash metrics engine (src/src/App.tsx).

JavaScript numbers are modelled by the inductive type `JNum`: NaN, +Infinity,
-Infinity, or an exact rational. Arithmetic follows IEEE-754 special-value
rules (Infinity - Infinity = NaN, 0 * Infinity = NaN, x/0 with x > 0 = Infinity,
comparisons with NaN are false), while finite values are kept as exact
rationals, i.e. rounding error is abstracted away. Signed zero is collapsed to
the single rational zero; every division in the translated code is guarded by a
strict positivity test on its divisor, so the sign of a zero divisor is never
consulted on a reachable branch.

Raw upstream records carry numeric strings; the engine consumes each such
string through exactly one numeric parse (`Number` inside `parseBalance`, or
the comma-stripping `n` inside `fromBps`/`fromRay`). A raw field is therefore
modelled as the `JNum` value that parse produces (NaN for a malformed string).
-/

namespace AaveDash

/-- A JavaScript number: NaN, +Infinity, -Infinity, or a finite value
modelled as an exact rational. -/
inductive JNum where
  | nan : JNum
  | inf : JNum
  | ninf : JNum
  | fin : ℚ → JNum
deriving DecidableEq

/-- IEEE-style addition on `JNum`. -/
def jadd : JNum → JNum → JNum
  | .nan, _ => .nan
  | _, .nan => .nan
  | .inf, .inf => .inf
  | .inf, .ninf => .nan
  | .inf, .fin _ => .inf
  | .ninf, .inf => .nan
  | .ninf, .ninf => .ninf
  | .ninf, .fin _ => .ninf
  | .fin _, .inf => .inf
  | .fin _, .ninf => .ninf
  | .fin a, .fin b => .fin (a + b)

/-- IEEE-style negation on `JNum`. -/
def jneg : JNum → JNum
  | .nan => .nan
  | .inf => .ninf
  | .ninf => .inf
  | .fin a => .fin (-a)

/-- IEEE-style subtraction on `JNum` (`a - b` behaves as `a + (-b)`). -/
def jsub (a b : JNum) : JNum := jadd a (jneg b)

/-- IEEE-style multiplication on `JNum` (`0 * Infinity = NaN`). -/
def jmul : JNum → JNum → JNum
  | .nan, _ => .nan
  | _, .nan => .nan
  | .inf, .inf => .inf
  | .inf, .ninf => .ninf
  | .inf, .fin b => if 0 < b then .inf else if b < 0 then .ninf else .nan
  | .ninf, .inf => .ninf
  | .ninf, .ninf => .inf
  | .ninf, .fin b => if 0 < b then .ninf else if b < 0 then .inf else .nan
  | .fin a, .inf => if 0 < a then .inf else if a < 0 then .ninf else .nan
  | .fin a, .ninf => if 0 < a then .ninf else if a < 0 then .inf else .nan
  | .fin a, .fin b => .fin (a * b)

/-- IEEE-style division on `JNum` (`Infinity / Infinity = NaN`, `x / 0` for
`x > 0` is `Infinity` treating the zero as +0, `0 / 0 = NaN`). -/
def jdiv : JNum → JNum → JNum
  | .nan, _ => .nan
  | _, .nan => .nan
  | .inf, .inf => .nan
  | .inf, .ninf => .nan
  | .ninf, .inf => .nan
  | .ninf, .ninf => .nan
  | .inf, .fin b => if 0 ≤ b then .inf else .ninf
  | .ninf, .fin b => if 0 ≤ b then .ninf else .inf
  | .fin _, .inf => .fin 0
  | .fin _, .ninf => .fin 0
  | .fin a, .fin b =>
      if b = 0 then (if 0 < a then .inf else if a < 0 then .ninf else .nan)
      else .fin (a / b)

/-- JavaScript `<` on numbers: any comparison involving NaN is false. -/
def jltb : JNum → JNum → Bool
  | .nan, _ => false
  | _, .nan => false
  | .inf, _ => false
  | .ninf, .ninf => false
  | .ninf, _ => true
  | .fin _, .inf => true
  | .fin _, .ninf => false
  | .fin a, .fin b => decide (a < b)

/-- JavaScript `<=` on numbers: any comparison involving NaN is false. -/
def jleb : JNum → JNum → Bool
  | .nan, _ => false
  | _, .nan => false
  | .inf, .inf => true
  | .inf, _ => false
  | .ninf, _ => true
  | .fin _, .inf => true
  | .fin _, .ninf => false
  | .fin a, .fin b => decide (a ≤ b)

/-- JavaScript `>` on numbers. -/
def jgtb (a b : JNum) : Bool := jltb b a

/-- JavaScript `Number.isFinite`. -/
def JNum.isFinite : JNum → Bool
  | .fin _ => true
  | _ => false

/-- The finite rational content of a `JNum`; by convention 0 on NaN and the
infinities (used exactly where the source guards with `Number.isFinite`). -/
def jsN : JNum → ℚ
  | .fin q => q
  | _ => 0

/-- Extract the rational of a finite `JNum`, `none` otherwise. -/
def JNum.toFinQ : JNum → Option ℚ
  | .fin q => some q
  | _ => none

/-- Source `clamp(value, min, max) = Math.min(max, Math.max(min, value))`,
restricted to finite rationals as used by `fromBps`. -/
def clampQ (value lo hi : ℚ) : ℚ := min hi (max lo value)

/-- Source `parseBalance(raw, decimals)`: divide by `10 ** decimals`, return 0
unless the result is finite. The `raw` argument is the `Number(...)` value of
the source string. The result is always finite, hence returned as a rational. -/
def parseBalance (raw : JNum) (decimals : ℕ) : ℚ :=
  jsN (jdiv raw (.fin ((10 : ℚ) ^ decimals)))

/-- Source `fromBps(raw) = clamp(n(raw) / 10_000, 0, 0.99)`; `n` coerces a
non-finite parse to 0, which `jsN` models. -/
def fromBps (raw : JNum) : ℚ := clampQ (jsN raw / 10000) 0 (99 / 100)

/-- Source `fromRay(raw) = Math.max(0, n(raw) / 10 ** 27)`. -/
def fromRay (raw : JNum) : ℚ := max 0 (jsN raw / (10 : ℚ) ^ (27 : ℕ))

/-- Source type `AssetPosition`: one token held or owed within one market. -/
structure AssetPosition where
  symbol : String
  address : String
  amount : JNum
  usdPrice : JNum
  usdValue : JNum
  collateralEnabled : Bool
  maxLTV : JNum
  liqThreshold : JNum
  supplyRate : JNum
  borrowRate : JNum
deriving DecidableEq

/-- Source type `LoanPosition`: one borrowed asset paired with the market's
eligible collateral. -/
structure LoanPosition where
  id : String
  marketName : String
  borrowed : AssetPosition
  supplied : List AssetPosition
  totalSuppliedUsd : JNum
  totalBorrowedUsd : JNum
deriving DecidableEq

/-- Source type `Computed`: the per-loan derived metrics record. -/
structure Computed where
  units : JNum
  px : JNum
  debt : JNum
  collateralUSD : JNum
  equity : JNum
  ltv : JNum
  leverage : JNum
  healthFactor : JNum
  liqPrice : JNum
  collateralUSDAtLiq : JNum
  ltvAtLiq : JNum
  priceDropToLiq : JNum
  supplyEarnUSD : JNum
  borrowCostUSD : JNum
  deployEarnUSD : JNum
  netEarnUSD : JNum
  netAPYOnEquity : JNum
  maxBorrowByLTV : JNum
  borrowHeadroom : JNum
  borrowPowerUsed : JNum
  equityMoveFor10Pct : JNum
  collateralBufferUSD : JNum
  alertHF : Bool
  alertLTV : Bool
  ltvMax : JNum
  lt : JNum
  rSupply : JNum
  rBorrow : JNum
  rDeploy : JNum
  primaryCollateralSymbol : String
deriving DecidableEq

/-- Source reserve metadata nested inside a raw user-reserve record. Numeric
string fields are modelled by the `JNum` their one parse produces. -/
structure RawReserveInfo where
  symbol : String
  decimals : ℕ
  underlyingAsset : String
  baseLTVasCollateral : JNum
  reserveLiquidationThreshold : JNum
  liquidityRate : JNum
  variableBorrowRate : JNum
deriving DecidableEq

/-- Source type `RawUserReserve`. -/
structure RawUserReserve where
  currentATokenBalance : JNum
  currentTotalDebt : JNum
  usageAsCollateralEnabledOnUser : Bool
  reserve : RawReserveInfo
deriving DecidableEq

/-- Source type `RawUserReserveWithMarket`: a raw record tagged with its
source market. -/
structure RawUserReserveWithMarket extends RawUserReserve where
  __marketName : String
deriving DecidableEq

/-- The `items.reduce((sum, item) => sum + item.usdValue, 0)` total used both
by `weightedAverage` and for `totalSuppliedUsd`. -/
def totalUsdValue (items : List AssetPosition) : JNum :=
  items.foldl (fun s i => jadd s i.usdValue) (.fin 0)

/-- Source `weightedAverage(items, valueSelector)`. -/
def weightedAverage (items : List AssetPosition) (valueSelector : AssetPosition → JNum) : JNum :=
  let totalWeight := totalUsdValue items
  if jleb totalWeight (.fin 0) then .fin 0
  else
    let weighted := items.foldl (fun s i => jadd s (jmul (valueSelector i) i.usdValue)) (.fin 0)
    jdiv weighted totalWeight

/-- The `reduce` in the primary-collateral selection of `computeLoanMetrics`:
keep the accumulator unless the current asset's usdValue is strictly larger. -/
def pickFold (a : AssetPosition) (l : List AssetPosition) : AssetPosition :=
  l.foldl (fun mx cur => if jgtb cur.usdValue mx.usdValue then cur else mx) a

/-- `loan.supplied.length > 0 ? loan.supplied.reduce(...) : null`. -/
def pickPrimary : List AssetPosition → Option AssetPosition
  | [] => none
  | a :: rest => some (pickFold a rest)

/-- Source `computeLoanMetrics(loan)`, translated clause by clause from
src/src/App.tsx lines 470-585. -/
def computeLoanMetrics : Option LoanPosition → Computed
  | none =>
    { units := .fin 0
      px := .fin 0
      debt := .fin 0
      collateralUSD := .fin 0
      equity := .fin 0
      ltv := .fin 0
      leverage := .fin 0
      healthFactor := .inf
      liqPrice := .inf
      collateralUSDAtLiq := .inf
      ltvAtLiq := .fin 0
      priceDropToLiq := .fin 0
      supplyEarnUSD := .fin 0
      borrowCostUSD := .fin 0
      deployEarnUSD := .fin 0
      netEarnUSD := .fin 0
      netAPYOnEquity := .fin 0
      maxBorrowByLTV := .fin 0
      borrowHeadroom := .fin 0
      borrowPowerUsed := .fin 0
      equityMoveFor10Pct := .fin 0
      collateralBufferUSD := .fin 0
      alertHF := false
      alertLTV := false
      ltvMax := .fin 0
      lt := .fin 0
      rSupply := .fin 0
      rBorrow := .fin 0
      rDeploy := .fin 0
      primaryCollateralSymbol := "—" }
  | some loan =>
    let debt := loan.totalBorrowedUsd
    let collateralUSD := loan.totalSuppliedUsd
    let equity := jsub collateralUSD debt
    let ltvMax := weightedAverage loan.supplied (fun asset => asset.maxLTV)
    let lt := weightedAverage loan.supplied (fun asset => asset.liqThreshold)
    let rSupply := weightedAverage loan.supplied (fun asset => asset.supplyRate)
    let rBorrow := loan.borrowed.borrowRate
    let rDeploy := JNum.fin 0
    let ltv := if jgtb collateralUSD (.fin 0) then jdiv debt collateralUSD else .fin 0
    let leverage := if jgtb equity (.fin 0) then jdiv collateralUSD equity else .inf
    let healthFactor := if jgtb debt (.fin 0) then jdiv (jmul collateralUSD lt) debt else .inf
    let primary := pickPrimary loan.supplied
    let units := (primary.map (fun p => p.amount)).getD (.fin 0)
    let px := (primary.map (fun p => p.usdPrice)).getD (.fin 0)
    let primaryCollateralSymbol := (primary.map (fun p => p.symbol)).getD "—"
    let collateralUSDAtLiq := if jgtb lt (.fin 0) then jdiv debt lt else .inf
    let collateralOtherUSD := jsub collateralUSD ((primary.map (fun p => p.usdValue)).getD (.fin 0))
    let primaryUsdAtLiq := jsub collateralUSDAtLiq collateralOtherUSD
    let liqPrice := if jgtb units (.fin 0) then jdiv primaryUsdAtLiq units else .inf
    let ltvAtLiq := if jgtb collateralUSDAtLiq (.fin 0) then jdiv debt collateralUSDAtLiq else .fin 0
    let priceDropToLiq :=
      if jgtb px (.fin 0) && liqPrice.isFinite then jdiv (jsub px liqPrice) px else .fin 0
    let supplyEarnUSD := jmul collateralUSD rSupply
    let borrowCostUSD := jmul debt rBorrow
    let deployEarnUSD := jmul debt rDeploy
    let netEarnUSD := jsub (jadd supplyEarnUSD deployEarnUSD) borrowCostUSD
    let netAPYOnEquity := if jgtb equity (.fin 0) then jdiv netEarnUSD equity else .fin 0
    let maxBorrowByLTV := jmul collateralUSD ltvMax
    let borrowHeadroom := jsub maxBorrowByLTV debt
    let borrowPowerUsed := if jgtb maxBorrowByLTV (.fin 0) then jdiv debt maxBorrowByLTV else .fin 0
    let equityMoveFor10Pct := if leverage.isFinite then jmul leverage (.fin (1 / 10)) else .fin 0
    let collateralBufferUSD := jsub collateralUSD collateralUSDAtLiq
    let alertHF := jltb healthFactor (.fin (3 / 2))
    let alertLTV := jgtb ltv (jmul (.fin (7 / 10)) lt)
    { units := units
      px := px
      debt := debt
      collateralUSD := collateralUSD
      equity := equity
      ltv := ltv
      leverage := leverage
      healthFactor := healthFactor
      liqPrice := liqPrice
      collateralUSDAtLiq := collateralUSDAtLiq
      ltvAtLiq := ltvAtLiq
      priceDropToLiq := priceDropToLiq
      supplyEarnUSD := supplyEarnUSD
      borrowCostUSD := borrowCostUSD
      deployEarnUSD := deployEarnUSD
      netEarnUSD := netEarnUSD
      netAPYOnEquity := netAPYOnEquity
      maxBorrowByLTV := maxBorrowByLTV
      borrowHeadroom := borrowHeadroom
      borrowPowerUsed := borrowPowerUsed
      equityMoveFor10Pct := equityMoveFor10Pct
      collateralBufferUSD := collateralBufferUSD
      alertHF := alertHF
      alertLTV := alertLTV
      ltvMax := ltvMax
      lt := lt
      rSupply := rSupply
      rBorrow := rBorrow
      rDeploy := rDeploy
      primaryCollateralSymbol := primaryCollateralSymbol }

/-- Source `toAssetPosition(raw, amount, prices)`; `amount` is the (always
finite) result of `parseBalance`. A missing price entry degrades to price 0. -/
def toAssetPosition (raw : RawUserReserve) (amount : ℚ) (prices : String → Option JNum) :
    AssetPosition :=
  let symbol := raw.reserve.symbol.toUpper
  let usdPrice := (prices symbol).getD (.fin 0)
  { symbol := symbol
    address := raw.reserve.underlyingAsset.toLower
    amount := .fin amount
    usdPrice := usdPrice
    usdValue := jmul (.fin amount) usdPrice
    collateralEnabled := raw.usageAsCollateralEnabledOnUser
    maxLTV := .fin (fromBps raw.reserve.baseLTVasCollateral)
    liqThreshold := .fin (fromBps raw.reserve.reserveLiquidationThreshold)
    supplyRate := .fin (fromRay raw.reserve.liquidityRate)
    borrowRate := .fin (fromRay raw.reserve.variableBorrowRate) }

/-- One step of grouping a reserve record into the per-market association list
(JavaScript `Map` with insertion order preserved). -/
def addToGroup : List (String × List RawUserReserveWithMarket) → RawUserReserveWithMarket →
    List (String × List RawUserReserveWithMarket)
  | [], r => [(r.__marketName, [r])]
  | (k, g) :: rest, r =>
      if k = r.__marketName then (k, g ++ [r]) :: rest else (k, g) :: addToGroup rest r

/-- The `loansByMarket` map of `buildLoanPositions`, as an insertion-ordered
association list. -/
def groupByMarket (reserves : List RawUserReserveWithMarket) :
    List (String × List RawUserReserveWithMarket) :=
  reserves.foldl addToGroup []

/-- The `suppliedAssets` list of one market group: deposit balances converted
and filtered to positive amounts. -/
def marketSupplied (group : List RawUserReserveWithMarket) (prices : String → Option JNum) :
    List AssetPosition :=
  (group.map (fun entry =>
      toAssetPosition entry.toRawUserReserve
        (parseBalance entry.currentATokenBalance entry.reserve.decimals) prices)).filter
    (fun entry => jgtb entry.amount (.fin 0))

/-- The `borrowedAssets` list of one market group: debt balances converted and
filtered to positive amounts. -/
def marketBorrowed (group : List RawUserReserveWithMarket) (prices : String → Option JNum) :
    List AssetPosition :=
  (group.map (fun entry =>
      toAssetPosition entry.toRawUserReserve
        (parseBalance entry.currentTotalDebt entry.reserve.decimals) prices)).filter
    (fun entry => jgtb entry.amount (.fin 0))

/-- The `collateralSupplies` list: supplied entries with collateral enabled. -/
def eligibleCollateral (group : List RawUserReserveWithMarket) (prices : String → Option JNum) :
    List AssetPosition :=
  (marketSupplied group prices).filter (fun asset => asset.collateralEnabled)

/-- The `borrowedAssets.map((borrowed, index) => ...)` loan emission of
`buildLoanPositions`, with the index threaded explicitly. -/
def emitLoans (marketName : String) (collat : List AssetPosition) :
    ℕ → List AssetPosition → List LoanPosition
  | _, [] => []
  | index, borrowed :: rest =>
      { id := marketName ++ "-" ++ borrowed.address ++ "-" ++ Nat.repr index
        marketName := marketName
        borrowed := borrowed
        supplied := collat
        totalBorrowedUsd := borrowed.usdValue
        totalSuppliedUsd := totalUsdValue collat } :: emitLoans marketName collat (index + 1) rest

/-- Source `buildLoanPositions(reserves, prices)`. -/
def buildLoanPositions (reserves : List RawUserReserveWithMarket)
    (prices : String → Option JNum) : List LoanPosition :=
  (groupByMarket reserves).flatMap (fun g =>
    emitLoans g.1 (eligibleCollateral g.2 prices) 0 (marketBorrowed g.2 prices))

/-- Source `Portfolio` shape returned by the portfolio `useMemo`. -/
structure Portfolio where
  loanCount : ℕ
  totalDebt : JNum
  totalCollateral : JNum
  totalNetWorth : JNum
  totalSupplyEarn : JNum
  totalBorrowCost : JNum
  totalDeployEarn : JNum
  totalNetEarn : JNum
  averageHealthFactor : JNum
  averageSupplyApy : JNum
  averageBorrowApy : JNum
  portfolioNetApy : JNum
  borrowPowerUsed : JNum
deriving DecidableEq

/-- `list.reduce((sum, item) => sum + item, 0)` on numbers. -/
def jsum (l : List JNum) : JNum := l.foldl jadd (.fin 0)

/-- The portfolio rollup over the per-loan metrics list (src/src/App.tsx
lines 606-638). -/
def aggregatePortfolio (metrics : List Computed) : Portfolio :=
  let totalDebt := jsum (metrics.map (fun m => m.debt))
  let totalCollateral := jsum (metrics.map (fun m => m.collateralUSD))
  let totalNetWorth := jsum (metrics.map (fun m => m.equity))
  let totalSupplyEarn := jsum (metrics.map (fun m => m.supplyEarnUSD))
  let totalBorrowCost := jsum (metrics.map (fun m => m.borrowCostUSD))
  let totalDeployEarn := jsum (metrics.map (fun m => m.deployEarnUSD))
  let totalNetEarn := jsum (metrics.map (fun m => m.netEarnUSD))
  let totalMaxBorrow := jsum (metrics.map (fun m => m.maxBorrowByLTV))
  let finiteHealthFactors := (metrics.map (fun m => m.healthFactor)).filter
    (fun item => item.isFinite)
  let averageHealthFactor :=
    if 0 < finiteHealthFactors.length then
      jdiv (jsum finiteHealthFactors) (.fin finiteHealthFactors.length)
    else .inf
  { loanCount := metrics.length
    totalDebt := totalDebt
    totalCollateral := totalCollateral
    totalNetWorth := totalNetWorth
    totalSupplyEarn := totalSupplyEarn
    totalBorrowCost := totalBorrowCost
    totalDeployEarn := totalDeployEarn
    totalNetEarn := totalNetEarn
    averageHealthFactor := averageHealthFactor
    averageSupplyApy := if jgtb totalCollateral (.fin 0) then jdiv totalSupplyEarn totalCollateral else .fin 0
    averageBorrowApy := if jgtb totalDebt (.fin 0) then jdiv totalBorrowCost totalDebt else .fin 0
    portfolioNetApy := if jgtb totalNetWorth (.fin 0) then jdiv totalNetEarn totalNetWorth else .fin 0
    borrowPowerUsed := if jgtb totalMaxBorrow (.fin 0) then jdiv totalDebt totalMaxBorrow else .fin 0 }

/-- The portfolio `useMemo`: `null` for an empty loan list, otherwise the
rollup of `computeLoanMetrics` over every loan. -/
def portfolioOf (loans : List LoanPosition) : Option Portfolio :=
  if loans.isEmpty then none
  else some (aggregatePortfolio (loans.map (fun loan => computeLoanMetrics (some loan))))

/-- Data-model invariants of §3 of the spec for one asset position: a positive
finite amount, a nonnegative finite USD price, `usdValue` recomputed as
`amount * usdPrice`, `maxLTV` and `liqThreshold` inside `[0, 0.99]` (the
`fromBps` clamp), and nonnegative finite rates (the `fromRay` floor). -/
def AssetPosition.WF (a : AssetPosition) : Prop :=
  (∃ q, a.amount = .fin q ∧ 0 < q) ∧
  (∃ p, a.usdPrice = .fin p ∧ 0 ≤ p) ∧
  a.usdValue = jmul a.amount a.usdPrice ∧
  (∃ m, a.maxLTV = .fin m ∧ 0 ≤ m ∧ m ≤ 99 / 100) ∧
  (∃ t, a.liqThreshold = .fin t ∧ 0 ≤ t ∧ t ≤ 99 / 100) ∧
  (∃ s, a.supplyRate = .fin s ∧ 0 ≤ s) ∧
  (∃ b, a.borrowRate = .fin b ∧ 0 ≤ b)

/-- Data-model invariants of §3 for one loan position: well-formed borrowed
and supplied assets, `totalBorrowedUsd` equal to the borrowed asset's usd
value, and `totalSuppliedUsd` equal to the sum of the collateral usd values. -/
def LoanPosition.WF (l : LoanPosition) : Prop :=
  l.borrowed.WF ∧ (∀ a ∈ l.supplied, a.WF) ∧
  l.totalBorrowedUsd = l.borrowed.usdValue ∧
  l.totalSuppliedUsd = totalUsdValue l.supplied

/-- All numeric fields of an asset position are finite (neither NaN nor an
infinity). -/
def AssetPosition.AllFinite (a : AssetPosition) : Prop :=
  a.amount.isFinite = true ∧ a.usdPrice.isFinite = true ∧ a.usdValue.isFinite = true ∧
  a.maxLTV.isFinite = true ∧ a.liqThreshold.isFinite = true ∧ a.supplyRate.isFinite = true ∧
  a.borrowRate.isFinite = true

/-- All numeric fields of a loan position are finite. -/
def LoanPosition.AllFinite (l : LoanPosition) : Prop :=
  l.borrowed.AllFinite ∧ (∀ a ∈ l.supplied, a.AllFinite) ∧
  l.totalSuppliedUsd.isFinite = true ∧ l.totalBorrowedUsd.isFinite = true

/-- No numeric field of a computed metrics record is NaN. -/
def Computed.NoNaNField (c : Computed) : Prop :=
  c.units ≠ .nan ∧ c.px ≠ .nan ∧ c.debt ≠ .nan ∧ c.collateralUSD ≠ .nan ∧
  c.equity ≠ .nan ∧ c.ltv ≠ .nan ∧ c.leverage ≠ .nan ∧ c.healthFactor ≠ .nan ∧
  c.liqPrice ≠ .nan ∧ c.collateralUSDAtLiq ≠ .nan ∧ c.ltvAtLiq ≠ .nan ∧
  c.priceDropToLiq ≠ .nan ∧ c.supplyEarnUSD ≠ .nan ∧ c.borrowCostUSD ≠ .nan ∧
  c.deployEarnUSD ≠ .nan ∧ c.netEarnUSD ≠ .nan ∧ c.netAPYOnEquity ≠ .nan ∧
  c.maxBorrowByLTV ≠ .nan ∧ c.borrowHeadroom ≠ .nan ∧ c.borrowPowerUsed ≠ .nan ∧
  c.equityMoveFor10Pct ≠ .nan ∧ c.collateralBufferUSD ≠ .nan ∧ c.ltvMax ≠ .nan ∧
  c.lt ≠ .nan ∧ c.rSupply ≠ .nan ∧ c.rBorrow ≠ .nan ∧ c.rDeploy ≠ .nan

/-! ## Concrete inputs used by witnesses and counterexamples -/

/-- Scenario A collateral: 10 WETH at 3000 USD, maxLTV 0.80, liqThreshold
0.825, supply rate 0.02. -/
def exAssetA : AssetPosition :=
  { symbol := "WETH", address := "0xweth", amount := .fin 10, usdPrice := .fin 3000,
    usdValue := .fin 30000, collateralEnabled := true, maxLTV := .fin (8 / 10),
    liqThreshold := .fin (825 / 1000), supplyRate := .fin (2 / 100), borrowRate := .fin 0 }

/-- Scenario A debt: 15000 USDC at 1 USD, borrow rate 0.05. -/
def exDebtA : AssetPosition :=
  { symbol := "USDC", address := "0xusdc", amount := .fin 15000, usdPrice := .fin 1,
    usdValue := .fin 15000, collateralEnabled := false, maxLTV := .fin 0,
    liqThreshold := .fin 0, supplyRate := .fin 0, borrowRate := .fin (5 / 100) }

/-- Scenario A loan: 30000 USD collateral against 15000 USD debt. -/
def exLoanA : LoanPosition :=
  { id := "m-0xusdc-0", marketName := "m", borrowed := exDebtA, supplied := [exAssetA],
    totalSuppliedUsd := .fin 30000, totalBorrowedUsd := .fin 15000 }

/-- A borrowed asset with zero usd value (zero price). -/
def exDebtZero : AssetPosition :=
  { symbol := "USDC", address := "0xusdc", amount := .fin 1, usdPrice := .fin 0,
    usdValue := .fin 0, collateralEnabled := false, maxLTV := .fin 0,
    liqThreshold := .fin 0, supplyRate := .fin 0, borrowRate := .fin (5 / 100) }

/-- A debt-free loan with 30000 USD collateral. -/
def exLoanNoDebt : LoanPosition :=
  { id := "m-0xusdc-0", marketName := "m", borrowed := exDebtZero, supplied := [exAssetA],
    totalSuppliedUsd := .fin 30000, totalBorrowedUsd := .fin 0 }

/-- A loan whose totals are both +Infinity (all fields merely finite or
infinite, none NaN). -/
def exLoanInfTotals : LoanPosition :=
  { id := "x-0xusdc-0", marketName := "x", borrowed := exDebtA, supplied := [],
    totalSuppliedUsd := .inf, totalBorrowedUsd := .inf }

/-- Weighted-average counterexample asset: usd weight 2, selector value 0. -/
def exNegA : AssetPosition :=
  { symbol := "A", address := "0xa", amount := .fin 1, usdPrice := .fin 2,
    usdValue := .fin 2, collateralEnabled := true, maxLTV := .fin 0,
    liqThreshold := .fin 0, supplyRate := .fin 0, borrowRate := .fin 0 }

/-- Weighted-average counterexample asset: usd weight -1, selector value 1. -/
def exNegB : AssetPosition :=
  { symbol := "B", address := "0xb", amount := .fin 1, usdPrice := .fin (-1),
    usdValue := .fin (-1), collateralEnabled := true, maxLTV := .fin 1,
    liqThreshold := .fin 0, supplyRate := .fin 0, borrowRate := .fin 0 }

/-- Scenario C asset: usd value 1000, liqThreshold 0.80. -/
def exEqA : AssetPosition :=
  { symbol := "EQA", address := "0xeqa", amount := .fin 1, usdPrice := .fin 1000,
    usdValue := .fin 1000, collateralEnabled := true, maxLTV := .fin (7 / 10),
    liqThreshold := .fin (8 / 10), supplyRate := .fin 0, borrowRate := .fin 0 }

/-- Scenario C asset: usd value 1000, liqThreshold 0.90. -/
def exEqB : AssetPosition :=
  { symbol := "EQB", address := "0xeqb", amount := .fin 1, usdPrice := .fin 1000,
    usdValue := .fin 1000, collateralEnabled := true, maxLTV := .fin (7 / 10),
    liqThreshold := .fin (9 / 10), supplyRate := .fin 0, borrowRate := .fin 0 }

/-- Tie-break asset 1: usd value 100, listed first. -/
def exTieA : AssetPosition :=
  { symbol := "TIE1", address := "0xt1", amount := .fin 4, usdPrice := .fin 25,
    usdValue := .fin 100, collateralEnabled := true, maxLTV := .fin (1 / 2),
    liqThreshold := .fin (1 / 2), supplyRate := .fin 0, borrowRate := .fin 0 }

/-- Tie-break asset 2: the same usd value 100, listed second. -/
def exTieB : AssetPosition :=
  { symbol := "TIE2", address := "0xt2", amount := .fin 2, usdPrice := .fin 50,
    usdValue := .fin 100, collateralEnabled := true, maxLTV := .fin (1 / 2),
    liqThreshold := .fin (1 / 2), supplyRate := .fin 0, borrowRate := .fin 0 }

/-- A loan with health factor exactly 1.8: collateral 1000 USD at threshold
0.9 against 500 USD of debt. -/
def exLoanHF18 : LoanPosition :=
  { id := "m-0xusdc-1", marketName := "m", borrowed := exDebtA, supplied := [exEqB],
    totalSuppliedUsd := .fin 1000, totalBorrowedUsd := .fin 500 }

/-- A loan whose two collateral assets tie exactly on usd value. -/
def exTieLoan : LoanPosition :=
  { id := "m-0xusdc-0", marketName := "m", borrowed := exDebtA,
    supplied := [exTieA, exTieB], totalSuppliedUsd := .fin 200,
    totalBorrowedUsd := .fin 15000 }

/-- A raw mainnet record with a deposit and no debt. -/
def exRawSupplyOnly : RawUserReserveWithMarket :=
  { currentATokenBalance := .fin 100000000, currentTotalDebt := .fin 0,
    usageAsCollateralEnabledOnUser := true,
    reserve := { symbol := "usdc", decimals := 6, underlyingAsset := "0xAbC",
                 baseLTVasCollateral := .fin 8000, reserveLiquidationThreshold := .fin 8500,
                 liquidityRate := .fin 0, variableBorrowRate := .fin 0 },
    __marketName := "proto_mainnet_v3" }

/-- The price mapping used by the builder examples. -/
def exPrices : String → Option JNum := fun s => if s = "USDC" then some (.fin 1) else none

/-! ## Basic facts about `JNum` arithmetic -/

lemma jadd_fin (a b : ℚ) : jadd (.fin a) (.fin b) = .fin (a + b) := rfl

lemma jneg_fin (a : ℚ) : jneg (.fin a) = .fin (-a) := rfl

lemma jsub_fin (a b : ℚ) : jsub (.fin a) (.fin b) = .fin (a - b) := by
  simp [jsub, jneg, jadd, sub_eq_add_neg]

lemma jmul_fin (a b : ℚ) : jmul (.fin a) (.fin b) = .fin (a * b) := rfl

lemma jdiv_fin (a b : ℚ) (h : b ≠ 0) : jdiv (.fin a) (.fin b) = .fin (a / b) := by
  simp [jdiv, h]

lemma jltb_fin (a b : ℚ) : jltb (.fin a) (.fin b) = decide (a < b) := rfl

lemma jleb_fin (a b : ℚ) : jleb (.fin a) (.fin b) = decide (a ≤ b) := rfl

lemma jgtb_fin (a b : ℚ) : jgtb (.fin a) (.fin b) = decide (b < a) := rfl

lemma jgtb_fin_iff (a b : ℚ) : jgtb (.fin a) (.fin b) = true ↔ b < a := by
  simp [jgtb, jltb]

lemma jleb_fin_iff (a b : ℚ) : jleb (.fin a) (.fin b) = true ↔ a ≤ b := by
  simp [jleb]

lemma jsN_fin (q : ℚ) : jsN (.fin q) = q := rfl

lemma JNum.isFinite_fin (q : ℚ) : (JNum.fin q).isFinite = true := rfl

/-- A left fold of `jadd` whose added values are all finite stays finite and
adds up the rational contents. -/
lemma foldl_jadd_fin {α : Type} (f : α → JNum) (l : List α) (c : ℚ)
    (h : ∀ a ∈ l, ∃ q, f a = .fin q) :
    l.foldl (fun s a => jadd s (f a)) (.fin c) = .fin (c + (l.map (fun a => jsN (f a))).sum) := by
  induction l generalizing c with
  | nil => simp
  | cons a t ih =>
    obtain ⟨q, hq⟩ := h a (List.mem_cons_self a t)
    have ht : ∀ b ∈ t, ∃ q, f b = .fin q := fun b hb => h b (List.mem_cons_of_mem a hb)
    simp only [List.foldl_cons, hq, jadd_fin, ih (c + q) ht, List.map_cons, List.sum_cons,
      jsN_fin]
    rw [add_assoc]

/-- `jsum` of a list of finite values. -/
lemma jsum_fin (l : List JNum) (h : ∀ x ∈ l, ∃ q, x = .fin q) :
    jsum l = .fin ((l.map jsN).sum) := by
  have key : ∀ (c : ℚ), l.foldl jadd (.fin c) = .fin (c + (l.map jsN).sum) := by
    induction l with
    | nil => intro c; simp
    | cons a t ih =>
      intro c
      obtain ⟨q, hq⟩ := h a (List.mem_cons_self a t)
      have ht : ∀ b ∈ t, ∃ q, b = .fin q := fun b hb => h b (List.mem_cons_of_mem a hb)
      simp only [List.foldl_cons, hq, jadd_fin, List.map_cons, List.sum_cons, jsN_fin]
      rw [ih ht (c + q)]
      congr 1
      ring
  simpa [jsum] using key 0

/-- `totalUsdValue` of a list of assets with finite usd values. -/
lemma totalUsdValue_fin (items : List AssetPosition)
    (h : ∀ a ∈ items, ∃ q, a.usdValue = .fin q) :
    totalUsdValue items = .fin ((items.map (fun a => jsN a.usdValue)).sum) := by
  have := foldl_jadd_fin (fun a => a.usdValue) items 0 h
  simpa [totalUsdValue] using this

/-! ## Behaviour of `weightedAverage` -/

/-- Unfolding the guard branch of `weightedAverage`. -/
lemma weightedAverage_of_nonpos (items : List AssetPosition) (sel : AssetPosition → JNum)
    (h : jleb (totalUsdValue items) (.fin 0) = true) :
    weightedAverage items sel = .fin 0 := by
  simp [weightedAverage, h]

/-- Unfolding the division branch of `weightedAverage`. -/
lemma weightedAverage_of_pos (items : List AssetPosition) (sel : AssetPosition → JNum)
    (h : jleb (totalUsdValue items) (.fin 0) = false) :
    weightedAverage items sel =
      jdiv (items.foldl (fun s i => jadd s (jmul (sel i) i.usdValue)) (.fin 0))
        (totalUsdValue items) := by
  simp [weightedAverage, h]

/-- Every nonempty list has an element whose value is least. -/
lemma exists_list_min {α : Type} (l : List α) (v : α → ℚ) (h : l ≠ []) :
    ∃ a ∈ l, ∀ b ∈ l, v a ≤ v b := by
  induction l with
  | nil => exact absurd rfl h
  | cons a t ih =>
    rcases t with _ | ⟨b, t⟩
    · exact ⟨a, List.mem_cons_self a [], by
        intro b hb
        rcases List.mem_singleton.mp hb with rfl
        exact le_refl _⟩
    · obtain ⟨m, hm, hmin⟩ := ih (by simp)
      rcases le_total (v a) (v m) with hle | hle
      · refine ⟨a, List.mem_cons_self _ _, ?_⟩
        intro c hc
        rcases List.mem_cons.mp hc with rfl | hc
        · exact le_refl _
        · exact hle.trans (hmin c hc)
      · refine ⟨m, List.mem_cons_of_mem _ hm, ?_⟩
        intro c hc
        rcases List.mem_cons.mp hc with rfl | hc
        · exact hle
        · exact hmin c hc

/-- Every nonempty list has an element whose value is greatest. -/
lemma exists_list_max {α : Type} (l : List α) (v : α → ℚ) (h : l ≠ []) :
    ∃ a ∈ l, ∀ b ∈ l, v b ≤ v a := by
  obtain ⟨a, ha, hmin⟩ := exists_list_min l (fun x => -(v x)) h
  exact ⟨a, ha, fun b hb => by simpa using hmin b hb⟩

/-- With finite nonnegative weights and finite selector values, a positive
total weight makes `weightedAverage` a finite value lying between some two
selector values of the list (hence within their minimum and maximum). -/
lemma weightedAverage_bounds (items : List AssetPosition) (sel : AssetPosition → JNum)
    (hw : ∀ a ∈ items, ∃ w, a.usdValue = .fin w ∧ 0 ≤ w)
    (hs : ∀ a ∈ items, ∃ q, sel a = .fin q)
    (hpos : jgtb (totalUsdValue items) (.fin 0) = true) :
    ∃ r, weightedAverage items sel = .fin r ∧
      (∃ a ∈ items, jsN (sel a) ≤ r) ∧ (∃ b ∈ items, r ≤ jsN (sel b)) := by
  have hwq : ∀ a ∈ items, ∃ q, a.usdValue = .fin q := fun a ha => ⟨(hw a ha).choose, (hw a ha).choose_spec.1⟩
  have htot := totalUsdValue_fin items hwq
  set W : ℚ := (items.map (fun a => jsN a.usdValue)).sum with hW
  have hWpos : 0 < W := by
    rw [htot] at hpos
    exact (jgtb_fin_iff W 0).mp hpos
  have hne : items ≠ [] := by
    intro hnil
    rw [hnil] at hW
    simp at hW
    rw [hW] at hWpos
    exact lt_irrefl 0 hWpos
  have hguard : jleb (totalUsdValue items) (.fin 0) = false := by
    rw [htot, jleb_fin]
    simpa using hWpos
  have hmulfin : ∀ a ∈ items, ∃ q, jmul (sel a) a.usdValue = .fin q := by
    intro a ha
    obtain ⟨w, hwv, _⟩ := hw a ha
    obtain ⟨q, hq⟩ := hs a ha
    exact ⟨q * w, by rw [hwv, hq, jmul_fin]⟩
  have hwt := foldl_jadd_fin (fun a => jmul (sel a) a.usdValue) items 0 hmulfin
  set T : ℚ := (items.map (fun a => jsN (jmul (sel a) a.usdValue))).sum with hT
  have hTval : (items.map (fun a => jsN (jmul (sel a) a.usdValue))).sum =
      (items.map (fun a => jsN (sel a) * jsN a.usdValue)).sum := by
    congr 1
    apply List.map_congr_left
    intro a ha
    obtain ⟨w, hwv, _⟩ := hw a ha
    obtain ⟨q, hq⟩ := hs a ha
    rw [hwv, hq, jmul_fin, jsN_fin, jsN_fin, jsN_fin]
  have hresult : weightedAverage items sel = .fin (T / W) := by
    rw [weightedAverage_of_pos items sel hguard, htot]
    have : items.foldl (fun s i => jadd s (jmul (sel i) i.usdValue)) (.fin 0) = .fin T := by
      simpa using hwt
    rw [this, jdiv_fin _ _ (ne_of_gt hWpos)]
  refine ⟨T / W, hresult, ?_, ?_⟩
  · obtain ⟨a, ha, hmin⟩ := exists_list_min items (fun x => jsN (sel x)) hne
    refine ⟨a, ha, ?_⟩
    have hsum : jsN (sel a) * W ≤ T := by
      rw [hT, hTval, hW, ← List.sum_map_mul_left]
      apply List.sum_le_sum
      intro b hb
      obtain ⟨w, hwv, hwpos⟩ := hw b hb
      have : jsN b.usdValue = w := by rw [hwv, jsN_fin]
      rw [this]
      exact mul_le_mul_of_nonneg_right (hmin b hb) hwpos
    calc jsN (sel a) = jsN (sel a) * W / W := by field_simp
    _ ≤ T / W := (div_le_div_iff_of_pos_right hWpos).mpr hsum
  · obtain ⟨b, hb, hmax⟩ := exists_list_max items (fun x => jsN (sel x)) hne
    refine ⟨b, hb, ?_⟩
    have hsum : T ≤ jsN (sel b) * W := by
      rw [hT, hTval, hW, ← List.sum_map_mul_left]
      apply List.sum_le_sum
      intro c hc
      obtain ⟨w, hwv, hwpos⟩ := hw c hc
      have : jsN c.usdValue = w := by rw [hwv, jsN_fin]
      rw [this]
      exact mul_le_mul_of_nonneg_right (hmax c hc) hwpos
    calc T / W ≤ jsN (sel b) * W / W := (div_le_div_iff_of_pos_right hWpos).mpr hsum
    _ = jsN (sel b) := by field_simp

/-- With finite nonnegative weights and finite nonnegative selector values,
`weightedAverage` is a finite nonnegative value. -/
lemma weightedAverage_nonneg (items : List AssetPosition) (sel : AssetPosition → JNum)
    (hw : ∀ a ∈ items, ∃ w, a.usdValue = .fin w ∧ 0 ≤ w)
    (hs : ∀ a ∈ items, ∃ q, sel a = .fin q ∧ 0 ≤ q) :
    ∃ r, weightedAverage items sel = .fin r ∧ 0 ≤ r := by
  have hwq : ∀ a ∈ items, ∃ q, a.usdValue = .fin q := fun a ha => ⟨(hw a ha).choose, (hw a ha).choose_spec.1⟩
  have htot := totalUsdValue_fin items hwq
  set W : ℚ := (items.map (fun a => jsN a.usdValue)).sum with hW
  by_cases hle : W ≤ 0
  · refine ⟨0, ?_, le_refl 0⟩
    apply weightedAverage_of_nonpos
    rw [htot, jleb_fin]
    simpa using hle
  · have hWpos : 0 < W := lt_of_not_ge hle
    have hguard : jleb (totalUsdValue items) (.fin 0) = false := by
      rw [htot, jleb_fin]
      simpa using hWpos
    have hmulfin : ∀ a ∈ items, ∃ q, jmul (sel a) a.usdValue = .fin q := by
      intro a ha
      obtain ⟨w, hwv, _⟩ := hw a ha
      obtain ⟨q, hq, _⟩ := hs a ha
      exact ⟨q * w, by rw [hwv, hq, jmul_fin]⟩
    have hwt := foldl_jadd_fin (fun a => jmul (sel a) a.usdValue) items 0 hmulfin
    set T : ℚ := (items.map (fun a => jsN (jmul (sel a) a.usdValue))).sum with hT
    have hTnn : 0 ≤ T := by
      rw [hT]
      apply List.sum_nonneg
      intro x hx
      obtain ⟨a, ha, rfl⟩ := List.mem_map.mp hx
      obtain ⟨w, hwv, hwpos⟩ := hw a ha
      obtain ⟨q, hq, hqpos⟩ := hs a ha
      rw [hwv, hq, jmul_fin, jsN_fin]
      exact mul_nonneg hqpos hwpos
    refine ⟨T / W, ?_, div_nonneg hTnn (le_of_lt hWpos)⟩
    rw [weightedAverage_of_pos items sel hguard, htot]
    have : items.foldl (fun s i => jadd s (jmul (sel i) i.usdValue)) (.fin 0) = .fin T := by
      simpa using hwt
    rw [this, jdiv_fin _ _ (ne_of_gt hWpos)]

/-! ## Behaviour of the primary-collateral `reduce` -/

lemma pickFold_cons (a c : AssetPosition) (t : List AssetPosition) :
    pickFold a (c :: t) = pickFold (if jgtb c.usdValue a.usdValue then c else a) t := rfl

/-- The reduce result is one of the scanned assets. -/
lemma pickFold_mem (a : AssetPosition) (l : List AssetPosition) : pickFold a l ∈ a :: l := by
  induction l generalizing a with
  | nil => exact List.mem_cons_self a []
  | cons c t ih =>
    rw [pickFold_cons]
    by_cases h : jgtb c.usdValue a.usdValue = true
    · rw [if_pos h]
      rcases List.mem_cons.mp (ih c) with hc | hc
      · rw [hc]
        exact List.mem_cons_of_mem a (List.mem_cons_self c t)
      · exact List.mem_cons_of_mem a (List.mem_cons_of_mem c hc)
    · rw [if_neg h]
      rcases List.mem_cons.mp (ih a) with hc | hc
      · rw [hc]
        exact List.mem_cons_self a (c :: t)
      · exact List.mem_cons_of_mem a (List.mem_cons_of_mem c hc)

/-- The reduce never decreases the tracked usd value (finite inputs). -/
lemma pickFold_ge (l : List AssetPosition) (a : AssetPosition)
    (ha : ∃ q, a.usdValue = .fin q) (hl : ∀ x ∈ l, ∃ q, x.usdValue = .fin q) :
    jsN a.usdValue ≤ jsN (pickFold a l).usdValue := by
  induction l generalizing a with
  | nil => exact le_refl _
  | cons c t ih =>
    rw [pickFold_cons]
    obtain ⟨qa, hqa⟩ := ha
    obtain ⟨qc, hqc⟩ := hl c (List.mem_cons_self c t)
    have ht : ∀ x ∈ t, ∃ q, x.usdValue = .fin q :=
      fun x hx => hl x (List.mem_cons_of_mem c hx)
    by_cases h : jgtb c.usdValue a.usdValue = true
    · rw [if_pos h]
      have hlt : qa < qc := by
        rw [hqa, hqc] at h
        exact (jgtb_fin_iff qc qa).mp h
      have h1 : jsN a.usdValue ≤ jsN c.usdValue := by
        rw [hqa, hqc, jsN_fin, jsN_fin]
        exact le_of_lt hlt
      exact h1.trans (ih c ⟨qc, hqc⟩ ht)
    · rw [if_neg h]
      exact ih a ⟨qa, hqa⟩ ht

/-- Splitting characterisation of the reduce over finite usd values: the
scanned list decomposes around the result; everything strictly before the
result is strictly smaller, everything after is at most the result. Hence the
result is the first asset attaining the maximum usd value. -/
lemma pickFold_split (l : List AssetPosition) (a : AssetPosition)
    (ha : ∃ q, a.usdValue = .fin q) (hl : ∀ x ∈ l, ∃ q, x.usdValue = .fin q) :
    ∃ l₁ l₂, a :: l = l₁ ++ pickFold a l :: l₂ ∧
      (∀ b ∈ l₁, jsN b.usdValue < jsN (pickFold a l).usdValue) ∧
      (∀ b ∈ l₂, jsN b.usdValue ≤ jsN (pickFold a l).usdValue) := by
  induction l generalizing a with
  | nil =>
    refine ⟨[], [], by simp [pickFold], ?_, ?_⟩
    · intro b hb
      exact absurd hb (List.not_mem_nil b)
    · intro b hb
      exact absurd hb (List.not_mem_nil b)
  | cons c t ih =>
    obtain ⟨qa, hqa⟩ := ha
    obtain ⟨qc, hqc⟩ := hl c (List.mem_cons_self c t)
    have ht : ∀ x ∈ t, ∃ q, x.usdValue = .fin q :=
      fun x hx => hl x (List.mem_cons_of_mem c hx)
    rw [pickFold_cons]
    by_cases h : jgtb c.usdValue a.usdValue = true
    · rw [if_pos h]
      have hlt : qa < qc := by
        rw [hqa, hqc] at h
        exact (jgtb_fin_iff qc qa).mp h
      obtain ⟨m₁, m₂, heq, hstrict, hle⟩ := ih c ⟨qc, hqc⟩ ht
      refine ⟨a :: m₁, m₂, by rw [List.cons_append, ← heq], ?_, hle⟩
      intro b hb
      rcases List.mem_cons.mp hb with rfl | hb
      · have h2 : jsN c.usdValue ≤ jsN (pickFold c t).usdValue := pickFold_ge t c ⟨qc, hqc⟩ ht
        have h1 : jsN b.usdValue < jsN c.usdValue := by
          rw [hqa, hqc, jsN_fin, jsN_fin]
          exact hlt
        exact lt_of_lt_of_le h1 h2
      · exact hstrict b hb
    · rw [if_neg h]
      have hca : qc ≤ qa := by
        rw [hqa, hqc] at h
        have := (not_iff_not.mpr (jgtb_fin_iff qc qa)).mp (by simpa using h)
        exact le_of_not_lt this
      obtain ⟨m₁, m₂, heq, hstrict, hle⟩ := ih a ⟨qa, hqa⟩ ht
      rcases m₁ with _ | ⟨a₀, m₁'⟩
      · have hra : pickFold a t = a := by
          have := heq
          rw [List.nil_append] at this
          exact ((List.cons.injEq a t (pickFold a t) m₂).mp this).1.symm
        have hm₂ : m₂ = t := by
          have := heq
          rw [List.nil_append] at this
          exact ((List.cons.injEq a t (pickFold a t) m₂).mp this).2.symm
        refine ⟨[], c :: t, by rw [hra, List.nil_append], ?_, ?_⟩
        · intro b hb
          exact absurd hb (List.not_mem_nil b)
        · intro b hb
          rw [hra]
          rcases List.mem_cons.mp hb with rfl | hb
          · rw [hqa, hqc, jsN_fin, jsN_fin]
            exact hca
          · have := hle b (by rw [hm₂]; exact hb)
            rw [hra] at this
            exact this
      · have ha₀ : a₀ = a := by
          have := heq
          rw [List.cons_append] at this
          exact ((List.cons.injEq a t a₀ (m₁' ++ pickFold a t :: m₂)).mp this).1.symm
        have htm : t = m₁' ++ pickFold a t :: m₂ := by
          have := heq
          rw [List.cons_append] at this
          exact ((List.cons.injEq a t a₀ (m₁' ++ pickFold a t :: m₂)).mp this).2
        have hastrict : jsN a.usdValue < jsN (pickFold a t).usdValue := by
          have := hstrict a₀ (List.mem_cons_self a₀ m₁')
          rw [ha₀] at this
          exact this
        refine ⟨a :: c :: m₁', m₂, ?_, ?_, hle⟩
        · rw [List.cons_append, List.cons_append, ← htm]
        · intro b hb
          rcases List.mem_cons.mp hb with rfl | hb
          · exact hastrict
          · rcases List.mem_cons.mp hb with rfl | hb
            · have hbc : jsN b.usdValue ≤ jsN a.usdValue := by
                rw [hqa, hqc, jsN_fin, jsN_fin]
                exact hca
              exact lt_of_le_of_lt hbc hastrict
            · exact hstrict b (List.mem_cons_of_mem a₀ hb)

/-! ## Field projections of `computeLoanMetrics` on a selected loan -/

lemma clm_debt (loan : LoanPosition) :
    (computeLoanMetrics (some loan)).debt = loan.totalBorrowedUsd := rfl

lemma clm_collateralUSD (loan : LoanPosition) :
    (computeLoanMetrics (some loan)).collateralUSD = loan.totalSuppliedUsd := rfl

lemma clm_equity (loan : LoanPosition) :
    (computeLoanMetrics (some loan)).equity =
      jsub loan.totalSuppliedUsd loan.totalBorrowedUsd := rfl

lemma clm_ltvMax (loan : LoanPosition) :
    (computeLoanMetrics (some loan)).ltvMax =
      weightedAverage loan.supplied (fun asset => asset.maxLTV) := rfl

lemma clm_lt (loan : LoanPosition) :
    (computeLoanMetrics (some loan)).lt =
      weightedAverage loan.supplied (fun asset => asset.liqThreshold) := rfl

lemma clm_rSupply (loan : LoanPosition) :
    (computeLoanMetrics (some loan)).rSupply =
      weightedAverage loan.supplied (fun asset => asset.supplyRate) := rfl

lemma clm_rBorrow (loan : LoanPosition) :
    (computeLoanMetrics (some loan)).rBorrow = loan.borrowed.borrowRate := rfl

lemma clm_rDeploy (loan : LoanPosition) :
    (computeLoanMetrics (some loan)).rDeploy = .fin 0 := rfl

lemma clm_ltv (loan : LoanPosition) :
    (computeLoanMetrics (some loan)).ltv =
      (if jgtb loan.totalSuppliedUsd (.fin 0)
       then jdiv loan.totalBorrowedUsd loan.totalSuppliedUsd else .fin 0) := rfl

lemma clm_leverage (loan : LoanPosition) :
    (computeLoanMetrics (some loan)).leverage =
      (if jgtb (jsub loan.totalSuppliedUsd loan.totalBorrowedUsd) (.fin 0)
       then jdiv loan.totalSuppliedUsd (jsub loan.totalSuppliedUsd loan.totalBorrowedUsd)
       else .inf) := rfl

lemma clm_healthFactor (loan : LoanPosition) :
    (computeLoanMetrics (some loan)).healthFactor =
      (if jgtb loan.totalBorrowedUsd (.fin 0)
       then jdiv
         (jmul loan.totalSuppliedUsd (weightedAverage loan.supplied (fun asset => asset.liqThreshold)))
         loan.totalBorrowedUsd
       else .inf) := rfl

lemma clm_units (loan : LoanPosition) :
    (computeLoanMetrics (some loan)).units =
      ((pickPrimary loan.supplied).map (fun p => p.amount)).getD (.fin 0) := rfl

lemma clm_px (loan : LoanPosition) :
    (computeLoanMetrics (some loan)).px =
      ((pickPrimary loan.supplied).map (fun p => p.usdPrice)).getD (.fin 0) := rfl

lemma clm_primaryCollateralSymbol (loan : LoanPosition) :
    (computeLoanMetrics (some loan)).primaryCollateralSymbol =
      ((pickPrimary loan.supplied).map (fun p => p.symbol)).getD "—" := rfl

lemma clm_collateralUSDAtLiq (loan : LoanPosition) :
    (computeLoanMetrics (some loan)).collateralUSDAtLiq =
      (if jgtb (weightedAverage loan.supplied (fun asset => asset.liqThreshold)) (.fin 0)
       then jdiv loan.totalBorrowedUsd
         (weightedAverage loan.supplied (fun asset => asset.liqThreshold))
       else .inf) := rfl

lemma clm_liqPrice (loan : LoanPosition) :
    (computeLoanMetrics (some loan)).liqPrice =
      (if jgtb (((pickPrimary loan.supplied).map (fun p => p.amount)).getD (.fin 0)) (.fin 0)
       then jdiv
         (jsub (computeLoanMetrics (some loan)).collateralUSDAtLiq
           (jsub loan.totalSuppliedUsd
             (((pickPrimary loan.supplied).map (fun p => p.usdValue)).getD (.fin 0))))
         (((pickPrimary loan.supplied).map (fun p => p.amount)).getD (.fin 0))
       else .inf) := rfl

lemma clm_ltvAtLiq (loan : LoanPosition) :
    (computeLoanMetrics (some loan)).ltvAtLiq =
      (if jgtb (computeLoanMetrics (some loan)).collateralUSDAtLiq (.fin 0)
       then jdiv loan.totalBorrowedUsd (computeLoanMetrics (some loan)).collateralUSDAtLiq
       else .fin 0) := rfl

lemma clm_priceDropToLiq (loan : LoanPosition) :
    (computeLoanMetrics (some loan)).priceDropToLiq =
      (if jgtb (computeLoanMetrics (some loan)).px (.fin 0)
            && (computeLoanMetrics (some loan)).liqPrice.isFinite
       then jdiv
         (jsub (computeLoanMetrics (some loan)).px (computeLoanMetrics (some loan)).liqPrice)
         (computeLoanMetrics (some loan)).px
       else .fin 0) := rfl

lemma clm_supplyEarnUSD (loan : LoanPosition) :
    (computeLoanMetrics (some loan)).supplyEarnUSD =
      jmul loan.totalSuppliedUsd (weightedAverage loan.supplied (fun asset => asset.supplyRate)) := rfl

lemma clm_borrowCostUSD (loan : LoanPosition) :
    (computeLoanMetrics (some loan)).borrowCostUSD =
      jmul loan.totalBorrowedUsd loan.borrowed.borrowRate := rfl

lemma clm_deployEarnUSD (loan : LoanPosition) :
    (computeLoanMetrics (some loan)).deployEarnUSD =
      jmul loan.totalBorrowedUsd (.fin 0) := rfl

lemma clm_netEarnUSD (loan : LoanPosition) :
    (computeLoanMetrics (some loan)).netEarnUSD =
      jsub (jadd (computeLoanMetrics (some loan)).supplyEarnUSD
        (computeLoanMetrics (some loan)).deployEarnUSD)
        (computeLoanMetrics (some loan)).borrowCostUSD := rfl

lemma clm_netAPYOnEquity (loan : LoanPosition) :
    (computeLoanMetrics (some loan)).netAPYOnEquity =
      (if jgtb (computeLoanMetrics (some loan)).equity (.fin 0)
       then jdiv (computeLoanMetrics (some loan)).netEarnUSD (computeLoanMetrics (some loan)).equity
       else .fin 0) := rfl

lemma clm_maxBorrowByLTV (loan : LoanPosition) :
    (computeLoanMetrics (some loan)).maxBorrowByLTV =
      jmul loan.totalSuppliedUsd (weightedAverage loan.supplied (fun asset => asset.maxLTV)) := rfl

lemma clm_borrowHeadroom (loan : LoanPosition) :
    (computeLoanMetrics (some loan)).borrowHeadroom =
      jsub (computeLoanMetrics (some loan)).maxBorrowByLTV loan.totalBorrowedUsd := rfl

lemma clm_borrowPowerUsed (loan : LoanPosition) :
    (computeLoanMetrics (some loan)).borrowPowerUsed =
      (if jgtb (computeLoanMetrics (some loan)).maxBorrowByLTV (.fin 0)
       then jdiv loan.totalBorrowedUsd (computeLoanMetrics (some loan)).maxBorrowByLTV
       else .fin 0) := rfl

lemma clm_equityMoveFor10Pct (loan : LoanPosition) :
    (computeLoanMetrics (some loan)).equityMoveFor10Pct =
      (if (computeLoanMetrics (some loan)).leverage.isFinite
       then jmul (computeLoanMetrics (some loan)).leverage (.fin (1 / 10))
       else .fin 0) := rfl

lemma clm_collateralBufferUSD (loan : LoanPosition) :
    (computeLoanMetrics (some loan)).collateralBufferUSD =
      jsub loan.totalSuppliedUsd (computeLoanMetrics (some loan)).collateralUSDAtLiq := rfl

lemma clm_alertHF (loan : LoanPosition) :
    (computeLoanMetrics (some loan)).alertHF =
      jltb (computeLoanMetrics (some loan)).healthFactor (.fin (3 / 2)) := rfl

lemma clm_alertLTV (loan : LoanPosition) :
    (computeLoanMetrics (some loan)).alertLTV =
      jgtb (computeLoanMetrics (some loan)).ltv
        (jmul (.fin (7 / 10)) (computeLoanMetrics (some loan)).lt) := rfl

/-! ## Facts derived from the data-model invariants -/

lemma JNum.isFinite_iff {x : JNum} : x.isFinite = true ↔ ∃ q, x = .fin q := by
  cases x <;> simp [JNum.isFinite]

/-- With finite weights and finite selector values the weighted average is
finite (regardless of signs). -/
lemma weightedAverage_fin (items : List AssetPosition) (sel : AssetPosition → JNum)
    (hw : ∀ a ∈ items, ∃ q, a.usdValue = .fin q)
    (hsel : ∀ a ∈ items, ∃ q, sel a = .fin q) :
    ∃ r, weightedAverage items sel = .fin r := by
  have htot := totalUsdValue_fin items hw
  set W : ℚ := (items.map (fun a => jsN a.usdValue)).sum with hW
  by_cases hle : W ≤ 0
  · refine ⟨0, weightedAverage_of_nonpos items sel ?_⟩
    rw [htot, jleb_fin]
    simpa using hle
  · have hWpos : 0 < W := lt_of_not_ge hle
    have hguard : jleb (totalUsdValue items) (.fin 0) = false := by
      rw [htot, jleb_fin]
      simpa using hWpos
    have hmulfin : ∀ a ∈ items, ∃ q, jmul (sel a) a.usdValue = .fin q := by
      intro a ha
      obtain ⟨w, hwv⟩ := hw a ha
      obtain ⟨q, hq⟩ := hsel a ha
      exact ⟨q * w, by rw [hwv, hq, jmul_fin]⟩
    have hwt := foldl_jadd_fin (fun a => jmul (sel a) a.usdValue) items 0 hmulfin
    refine ⟨(items.map (fun a => jsN (jmul (sel a) a.usdValue))).sum / W, ?_⟩
    rw [weightedAverage_of_pos items sel hguard, htot]
    have : items.foldl (fun s i => jadd s (jmul (sel i) i.usdValue)) (.fin 0) =
        .fin ((items.map (fun a => jsN (jmul (sel a) a.usdValue))).sum) := by
      simpa using hwt
    rw [this, jdiv_fin _ _ (ne_of_gt hWpos)]

lemma AssetPosition.WF.usdValue_fin {a : AssetPosition} (h : a.WF) :
    ∃ v, a.usdValue = .fin v ∧ 0 ≤ v := by
  obtain ⟨⟨q, hq, hq0⟩, ⟨p, hp, hp0⟩, huv, _⟩ := h
  refine ⟨q * p, ?_, mul_nonneg (le_of_lt hq0) hp0⟩
  rw [huv, hq, hp, jmul_fin]

lemma LoanPosition.WF.debt_fin {l : LoanPosition} (h : l.WF) :
    ∃ d, l.totalBorrowedUsd = .fin d ∧ 0 ≤ d := by
  obtain ⟨hb, _, htb, _⟩ := h
  obtain ⟨v, hv, hv0⟩ := hb.usdValue_fin
  exact ⟨v, by rw [htb, hv], hv0⟩

lemma LoanPosition.WF.collateral_fin {l : LoanPosition} (h : l.WF) :
    ∃ s, l.totalSuppliedUsd = .fin s ∧ 0 ≤ s := by
  obtain ⟨_, hsup, _, hts⟩ := h
  have hw : ∀ a ∈ l.supplied, ∃ q, a.usdValue = .fin q := by
    intro a ha
    obtain ⟨v, hv, _⟩ := (hsup a ha).usdValue_fin
    exact ⟨v, hv⟩
  have htot := totalUsdValue_fin l.supplied hw
  refine ⟨_, by rw [hts, htot], ?_⟩
  apply List.sum_nonneg
  intro x hx
  obtain ⟨a, ha, rfl⟩ := List.mem_map.mp hx
  obtain ⟨v, hv, hv0⟩ := (hsup a ha).usdValue_fin
  rw [hv, jsN_fin]
  exact hv0

lemma LoanPosition.WF.lt_fin {l : LoanPosition} (h : l.WF) :
    ∃ t, weightedAverage l.supplied (fun a => a.liqThreshold) = .fin t ∧ 0 ≤ t := by
  obtain ⟨_, hsup, _, _⟩ := h
  apply weightedAverage_nonneg
  · intro a ha
    exact (hsup a ha).usdValue_fin
  · intro a ha
    obtain ⟨_, _, _, _, ⟨t, ht, ht0, _⟩, _, _⟩ := hsup a ha
    exact ⟨t, ht, ht0⟩

lemma LoanPosition.WF.rSupply_fin {l : LoanPosition} (h : l.WF) :
    ∃ r, weightedAverage l.supplied (fun a => a.supplyRate) = .fin r ∧ 0 ≤ r := by
  obtain ⟨_, hsup, _, _⟩ := h
  apply weightedAverage_nonneg
  · intro a ha
    exact (hsup a ha).usdValue_fin
  · intro a ha
    obtain ⟨_, _, _, _, _, ⟨r, hr, hr0⟩, _⟩ := hsup a ha
    exact ⟨r, hr, hr0⟩

lemma exAssetA_wf : exAssetA.WF :=
  ⟨⟨10, rfl, by norm_num⟩, ⟨3000, rfl, by norm_num⟩, by norm_num [exAssetA, jmul],
   ⟨8 / 10, rfl, by norm_num, by norm_num⟩, ⟨825 / 1000, rfl, by norm_num, by norm_num⟩,
   ⟨2 / 100, rfl, by norm_num⟩, ⟨0, rfl, le_refl 0⟩⟩

lemma exDebtA_wf : exDebtA.WF :=
  ⟨⟨15000, rfl, by norm_num⟩, ⟨1, rfl, by norm_num⟩, by norm_num [exDebtA, jmul],
   ⟨0, rfl, by norm_num, by norm_num⟩, ⟨0, rfl, by norm_num, by norm_num⟩,
   ⟨0, rfl, le_refl 0⟩, ⟨5 / 100, rfl, by norm_num⟩⟩

lemma exLoanA_wf : exLoanA.WF := by
  refine ⟨exDebtA_wf, ?_, rfl, by norm_num [exLoanA, exAssetA, totalUsdValue, jadd]⟩
  intro a ha
  have : a = exAssetA := by simpa [exLoanA] using ha
  rw [this]
  exact exAssetA_wf

lemma exDebtZero_wf : exDebtZero.WF :=
  ⟨⟨1, rfl, by norm_num⟩, ⟨0, rfl, le_refl 0⟩, by norm_num [exDebtZero, jmul],
   ⟨0, rfl, by norm_num, by norm_num⟩, ⟨0, rfl, by norm_num, by norm_num⟩,
   ⟨0, rfl, le_refl 0⟩, ⟨5 / 100, rfl, by norm_num⟩⟩

lemma exLoanNoDebt_wf : exLoanNoDebt.WF := by
  refine ⟨exDebtZero_wf, ?_, rfl, by norm_num [exLoanNoDebt, exAssetA, totalUsdValue, jadd]⟩
  intro a ha
  have : a = exAssetA := by simpa [exLoanNoDebt] using ha
  rw [this]
  exact exAssetA_wf

/-! ## Claim theorems -/

/-- Claim C1: for every well-formed loan position, the health factor is
+Infinity exactly when the debt is zero; with positive debt it equals the
finite nonnegative value `(collateralUSD * lt) / debt`; in particular a loan
with no collateral and positive debt gets health factor 0. -/
theorem C1_healthFactor_iff_debt_zero (loan : LoanPosition) (h : loan.WF) :
    ((computeLoanMetrics (some loan)).healthFactor = .inf ↔
      loan.totalBorrowedUsd = .fin 0) ∧
    (∀ d : ℚ, loan.totalBorrowedUsd = .fin d → 0 < d →
      ∃ s t : ℚ, (computeLoanMetrics (some loan)).collateralUSD = .fin s ∧
        (computeLoanMetrics (some loan)).lt = .fin t ∧
        (computeLoanMetrics (some loan)).healthFactor = .fin (s * t / d) ∧
        0 ≤ s * t / d) ∧
    (loan.supplied = [] → ∀ d : ℚ, loan.totalBorrowedUsd = .fin d → 0 < d →
      (computeLoanMetrics (some loan)).healthFactor = .fin 0) := by
  obtain ⟨d, hd, hd0⟩ := h.debt_fin
  obtain ⟨s, hsv, hs0⟩ := h.collateral_fin
  obtain ⟨t, htv, ht0⟩ := h.lt_fin
  rcases eq_or_lt_of_le hd0 with hdz | hdpos
  · have hdz' : d = 0 := hdz.symm
    have hguard : jgtb loan.totalBorrowedUsd (.fin 0) = false := by
      rw [hd, hdz', jgtb_fin]
      simp
    have hinf : (computeLoanMetrics (some loan)).healthFactor = .inf := by
      rw [clm_healthFactor, hguard]
      simp
    refine ⟨⟨fun _ => by rw [hd, hdz'], fun _ => hinf⟩, ?_, ?_⟩
    · intro d' hd' hd'0
      rw [hd] at hd'
      have hde : d = d' := by injection hd'
      exfalso
      rw [← hde, hdz'] at hd'0
      exact lt_irrefl 0 hd'0
    · intro _ d' hd' hd'0
      rw [hd] at hd'
      have hde : d = d' := by injection hd'
      exfalso
      rw [← hde, hdz'] at hd'0
      exact lt_irrefl 0 hd'0
  · have hguard : jgtb loan.totalBorrowedUsd (.fin 0) = true := by
      rw [hd, jgtb_fin]
      simpa using hdpos
    have hval : (computeLoanMetrics (some loan)).healthFactor = .fin (s * t / d) := by
      rw [clm_healthFactor, hguard]
      simp only [if_true]
      rw [hsv, htv, hd, jmul_fin, jdiv_fin _ _ (ne_of_gt hdpos)]
    refine ⟨⟨?_, ?_⟩, ?_, ?_⟩
    · intro hfi
      rw [hval] at hfi
      exact absurd hfi (by simp)
    · intro h0
      rw [hd] at h0
      have hde : d = 0 := by injection h0
      exfalso
      rw [hde] at hdpos
      exact lt_irrefl 0 hdpos
    · intro d' hd' hd'0
      rw [hd] at hd'
      have hde : d = d' := by injection hd'
      refine ⟨s, t, by rw [clm_collateralUSD]; exact hsv, by rw [clm_lt]; exact htv, ?_, ?_⟩
      · rw [hval, hde]
      · exact div_nonneg (mul_nonneg hs0 ht0) (le_of_lt hd'0)
    · intro hnil d' hd' hd'0
      have hs' : loan.totalSuppliedUsd = .fin 0 := by
        obtain ⟨_, _, _, hts⟩ := h
        rw [hts, hnil]
        rfl
      have hlt' : weightedAverage loan.supplied (fun a => a.liqThreshold) = .fin 0 := by
        rw [hnil]
        rfl
      rw [clm_healthFactor, hguard]
      simp only [if_true]
      rw [hs', hlt', hd, jmul_fin, jdiv_fin _ _ ?_]
      · norm_num
      · rw [hd] at hd'
        have hde : d = d' := by injection hd'
        rw [hde]
        exact ne_of_gt hd'0

/-- Claim C1 witness: the general theorem applied to the Scenario A loan,
whose health factor evaluates to 1.65. -/
theorem C1_witness :
    ((computeLoanMetrics (some exLoanA)).healthFactor = .inf ↔
      exLoanA.totalBorrowedUsd = .fin 0) ∧
    (computeLoanMetrics (some exLoanA)).healthFactor = .fin (33 / 20) :=
  ⟨(C1_healthFactor_iff_debt_zero exLoanA exLoanA_wf).1, by
    rw [clm_healthFactor]
    norm_num [weightedAverage, totalUsdValue, exLoanA, exAssetA, exDebtA, jadd, jmul, jdiv,
      jgtb, jltb, jleb]⟩

/-- Claim C2: the "no selection" input yields exactly the neutral record:
debt 0, healthFactor, liqPrice and collateralUSDAtLiq +Infinity, all rates and
remaining numeric fields 0, leverage 0, alerts off, primary symbol dash. -/
theorem C2_no_selection_neutral :
    computeLoanMetrics none =
      { units := .fin 0, px := .fin 0, debt := .fin 0, collateralUSD := .fin 0,
        equity := .fin 0, ltv := .fin 0, leverage := .fin 0, healthFactor := .inf,
        liqPrice := .inf, collateralUSDAtLiq := .inf, ltvAtLiq := .fin 0,
        priceDropToLiq := .fin 0, supplyEarnUSD := .fin 0, borrowCostUSD := .fin 0,
        deployEarnUSD := .fin 0, netEarnUSD := .fin 0, netAPYOnEquity := .fin 0,
        maxBorrowByLTV := .fin 0, borrowHeadroom := .fin 0, borrowPowerUsed := .fin 0,
        equityMoveFor10Pct := .fin 0, collateralBufferUSD := .fin 0, alertHF := false,
        alertLTV := false, ltvMax := .fin 0, lt := .fin 0, rSupply := .fin 0,
        rBorrow := .fin 0, rDeploy := .fin 0, primaryCollateralSymbol := "—" } := rfl

/-- Claim C9 counterexample: a debt-free loan with positive equity gets
leverage `collateralUSD / equity = 1`, a finite value, not +Infinity as the
claim states. -/
theorem C9_counterexample :
    exLoanNoDebt.totalBorrowedUsd = .fin 0 ∧
    jgtb (computeLoanMetrics (some exLoanNoDebt)).equity (.fin 0) = true ∧
    (computeLoanMetrics (some exLoanNoDebt)).leverage = .fin 1 ∧
    (computeLoanMetrics (some exLoanNoDebt)).leverage ≠ .inf := by
  have hlev : (computeLoanMetrics (some exLoanNoDebt)).leverage = .fin 1 := by
    rw [clm_leverage]
    norm_num [exLoanNoDebt, jsub, jneg, jadd, jdiv, jgtb, jltb]
  refine ⟨rfl, ?_, hlev, by rw [hlev]; simp⟩
  rw [clm_equity]
  norm_num [exLoanNoDebt, jsub, jneg, jadd, jgtb, jltb]

/-- Claim C9 (amended): a well-formed loan with debt 0 and positive equity
gets leverage `collateralUSD / equity = 1` (finite, not +Infinity), zero
borrow cost and zero deploy earn, net earn equal to the supply earn, and
health factor +Infinity. -/
theorem C9_zero_debt_metrics (loan : LoanPosition) (h : loan.WF)
    (hd : loan.totalBorrowedUsd = .fin 0)
    (he : jgtb (computeLoanMetrics (some loan)).equity (.fin 0) = true) :
    (computeLoanMetrics (some loan)).leverage = .fin 1 ∧
    (computeLoanMetrics (some loan)).borrowCostUSD = .fin 0 ∧
    (computeLoanMetrics (some loan)).deployEarnUSD = .fin 0 ∧
    (computeLoanMetrics (some loan)).netEarnUSD =
      (computeLoanMetrics (some loan)).supplyEarnUSD ∧
    (computeLoanMetrics (some loan)).healthFactor = .inf := by
  obtain ⟨s, hsv, hs0⟩ := h.collateral_fin
  have hsub : jsub loan.totalSuppliedUsd loan.totalBorrowedUsd = .fin s := by
    rw [hsv, hd, jsub_fin]
    norm_num
  have heq : (computeLoanMetrics (some loan)).equity = .fin s := by
    rw [clm_equity, hsub]
  have hspos : 0 < s := by
    rw [heq] at he
    exact (jgtb_fin_iff s 0).mp he
  obtain ⟨r, hr, _⟩ := h.rSupply_fin
  obtain ⟨hbwf, _, _, _⟩ := h
  obtain ⟨_, _, _, _, _, _, b, hb, _⟩ := hbwf
  have hsupply : (computeLoanMetrics (some loan)).supplyEarnUSD = .fin (s * r) := by
    rw [clm_supplyEarnUSD, hsv, hr, jmul_fin]
  refine ⟨?_, ?_, ?_, ?_, ?_⟩
  · rw [clm_leverage, hsub, if_pos ((jgtb_fin_iff s 0).mpr hspos), hsv,
      jdiv_fin _ _ (ne_of_gt hspos), div_self (ne_of_gt hspos)]
  · rw [clm_borrowCostUSD, hd, hb, jmul_fin]
    norm_num
  · rw [clm_deployEarnUSD, hd, jmul_fin]
    norm_num
  · rw [clm_netEarnUSD, clm_deployEarnUSD, clm_borrowCostUSD, hd, hb, jmul_fin, jmul_fin,
      hsupply, jadd_fin, jsub_fin]
    norm_num
  · rw [clm_healthFactor, hd]
    have hg : jgtb (JNum.fin 0) (JNum.fin 0) = false := by decide
    rw [hg]
    simp

/-- Claim C9 witness: the amended theorem applied to the concrete debt-free
loan. -/
theorem C9_witness :
    exLoanNoDebt.totalBorrowedUsd = .fin 0 ∧
    (computeLoanMetrics (some exLoanNoDebt)).leverage = .fin 1 :=
  ⟨rfl, (C9_zero_debt_metrics exLoanNoDebt exLoanNoDebt_wf rfl (by
    rw [clm_equity]
    norm_num [exLoanNoDebt, jsub, jneg, jadd, jgtb, jltb])).1⟩

/-- Claim C4: the liquidation figures are derived as
`collateralUSDAtLiq = debt / lt` when `lt > 0` (else +Infinity), and, when a
primary collateral asset exists,
`liqPrice = (collateralUSDAtLiq - (collateralUSD - primary.usdValue)) / primary.amount`
when `primary.amount > 0` (else +Infinity), all other collateral held at its
current USD value. -/
theorem C4_liquidation_figures (loan : LoanPosition) :
    (computeLoanMetrics (some loan)).collateralUSDAtLiq =
      (if jgtb (computeLoanMetrics (some loan)).lt (.fin 0)
       then jdiv (computeLoanMetrics (some loan)).debt (computeLoanMetrics (some loan)).lt
       else .inf) ∧
    (∀ p, pickPrimary loan.supplied = some p →
      (computeLoanMetrics (some loan)).liqPrice =
        (if jgtb p.amount (.fin 0)
         then jdiv
           (jsub (computeLoanMetrics (some loan)).collateralUSDAtLiq
             (jsub (computeLoanMetrics (some loan)).collateralUSD p.usdValue))
           p.amount
         else .inf)) := by
  constructor
  · rw [clm_collateralUSDAtLiq, clm_lt, clm_debt]
  · intro p hp
    rw [clm_liqPrice, clm_collateralUSD, hp]
    simp

/-- Claim C4 witness: the theorem applied to the Scenario A loan; its
liquidation price evaluates to 20000/11 (about 1818 USD). -/
theorem C4_witness :
    pickPrimary exLoanA.supplied = some exAssetA ∧
    (computeLoanMetrics (some exLoanA)).liqPrice = .fin (20000 / 11) := by
  refine ⟨rfl, ?_⟩
  rw [(C4_liquidation_figures exLoanA).2 exAssetA rfl, clm_collateralUSDAtLiq,
    clm_collateralUSD]
  norm_num [weightedAverage, totalUsdValue, exLoanA, exAssetA, exDebtA, jadd, jmul, jdiv,
    jsub, jneg, jgtb, jltb, jleb]

/-- Claim C8: with finite collateral usd values, the primary collateral is the
first supplied asset attaining the maximal usdValue (strictly larger than
everything before it, at least everything after it); with no collateral the
primary is null and the dependent metrics take their defaults (units 0, px 0,
liqPrice +Infinity, priceDropToLiq 0, symbol dash). -/
theorem C8_primary_selection (loan : LoanPosition)
    (hfin : ∀ a ∈ loan.supplied, ∃ q, a.usdValue = .fin q) :
    (loan.supplied = [] →
      pickPrimary loan.supplied = none ∧
      (computeLoanMetrics (some loan)).units = .fin 0 ∧
      (computeLoanMetrics (some loan)).px = .fin 0 ∧
      (computeLoanMetrics (some loan)).liqPrice = .inf ∧
      (computeLoanMetrics (some loan)).priceDropToLiq = .fin 0 ∧
      (computeLoanMetrics (some loan)).primaryCollateralSymbol = "—") ∧
    (∀ a rest, loan.supplied = a :: rest →
      ∃ p l₁ l₂, pickPrimary loan.supplied = some p ∧
        loan.supplied = l₁ ++ p :: l₂ ∧
        (∀ b ∈ l₁, jsN b.usdValue < jsN p.usdValue) ∧
        (∀ b ∈ loan.supplied, jsN b.usdValue ≤ jsN p.usdValue) ∧
        (computeLoanMetrics (some loan)).units = p.amount ∧
        (computeLoanMetrics (some loan)).px = p.usdPrice ∧
        (computeLoanMetrics (some loan)).primaryCollateralSymbol = p.symbol) := by
  constructor
  · intro hnil
    refine ⟨by rw [hnil]; rfl, ?_, ?_, ?_, ?_, ?_⟩
    · rw [clm_units, hnil]
      rfl
    · rw [clm_px, hnil]
      rfl
    · rw [clm_liqPrice, hnil]
      norm_num [pickPrimary, jgtb, jltb]
    · rw [clm_priceDropToLiq, clm_px, hnil]
      norm_num [pickPrimary, jgtb, jltb]
    · rw [clm_primaryCollateralSymbol, hnil]
      rfl
  · intro a rest hcons
    have ha : ∃ q, a.usdValue = .fin q := hfin a (by rw [hcons]; exact List.mem_cons_self a rest)
    have hrest : ∀ x ∈ rest, ∃ q, x.usdValue = .fin q := by
      intro x hx
      exact hfin x (by rw [hcons]; exact List.mem_cons_of_mem a hx)
    obtain ⟨l₁, l₂, heq, hstrict, hle⟩ := pickFold_split rest a ha hrest
    have hpick : pickPrimary loan.supplied = some (pickFold a rest) := by
      rw [hcons]
      rfl
    refine ⟨pickFold a rest, l₁, l₂, hpick, by rw [hcons]; exact heq, hstrict, ?_, ?_, ?_, ?_⟩
    · intro b hb
      rw [hcons, heq] at hb
      rcases List.mem_append.mp hb with hb1 | hb2
      · exact le_of_lt (hstrict b hb1)
      · rcases List.mem_cons.mp hb2 with rfl | hb3
        · exact le_refl _
        · exact hle b hb3
    · rw [clm_units, hpick]
      rfl
    · rw [clm_px, hpick]
      rfl
    · rw [clm_primaryCollateralSymbol, hpick]
      rfl

/-- Claim C8 witness: on an exact usd-value tie of the two collateral assets
the first one in insertion order is chosen. -/
theorem C8_witness :
    pickPrimary exTieLoan.supplied = some exTieA ∧
    (computeLoanMetrics (some exTieLoan)).primaryCollateralSymbol = "TIE1" := by
  have hfin : ∀ a ∈ exTieLoan.supplied, ∃ q, a.usdValue = JNum.fin q := by
    intro x hx
    simp only [exTieLoan] at hx
    rcases List.mem_cons.mp hx with rfl | hx2
    · exact ⟨100, rfl⟩
    · rcases List.mem_cons.mp hx2 with rfl | hx3
      · exact ⟨100, rfl⟩
      · exact absurd hx3 (List.not_mem_nil x)
  have hpA : pickPrimary exTieLoan.supplied = some exTieA := by
    norm_num [exTieLoan, pickPrimary, pickFold, exTieA, exTieB, jgtb, jltb]
  obtain ⟨p, l₁, l₂, hp, hsplit, hstrict, hlemax, hu, hpx, hsym⟩ :=
    (C8_primary_selection exTieLoan hfin).2 exTieA [exTieB] rfl
  have hpe : p = exTieA := by
    rw [hp] at hpA
    exact Option.some_inj.mp hpA
  refine ⟨hpA, ?_⟩
  rw [hsym, hpe]
  rfl

/-- Claim C6 counterexample: quantified over every asset list as the claim is,
the bound fails: with usd weights 2 and -1 (total 1 > 0) and selector values 0
and 1, the weighted average is -1, strictly below the minimum selector
value 0. -/
theorem C6_counterexample :
    jgtb (totalUsdValue [exNegA, exNegB]) (.fin 0) = true ∧
    (∀ a ∈ [exNegA, exNegB], jleb (.fin 0) a.maxLTV = true) ∧
    jltb (weightedAverage [exNegA, exNegB] (fun a => a.maxLTV)) (.fin 0) = true := by
  refine ⟨?_, ?_, ?_⟩
  · norm_num [totalUsdValue, exNegA, exNegB, jadd, jgtb, jltb]
  · intro a ha
    rcases List.mem_cons.mp ha with rfl | ha2
    · norm_num [exNegA, jleb]
    · rcases List.mem_cons.mp ha2 with rfl | ha3
      · norm_num [exNegB, jleb]
      · exact absurd ha3 (List.not_mem_nil a)
  · norm_num [weightedAverage, totalUsdValue, exNegA, exNegB, jadd, jmul, jdiv, jleb, jltb]

/-- Claim C6 (amended): restricted to finite nonnegative usd weights and
finite selector values, `weightedAverage` returns 0 whenever the total weight
is at most 0, and otherwise a finite value lying between two selector values
of the inputs (hence within their minimum and maximum). -/
theorem C6_weightedAverage_amended (items : List AssetPosition) (sel : AssetPosition → JNum)
    (hw : ∀ a ∈ items, ∃ w, a.usdValue = .fin w ∧ 0 ≤ w)
    (hs : ∀ a ∈ items, ∃ q, sel a = .fin q) :
    (jleb (totalUsdValue items) (.fin 0) = true → weightedAverage items sel = .fin 0) ∧
    (jgtb (totalUsdValue items) (.fin 0) = true →
      ∃ r, weightedAverage items sel = .fin r ∧
        (∃ a ∈ items, jsN (sel a) ≤ r) ∧ (∃ b ∈ items, r ≤ jsN (sel b))) :=
  ⟨fun h => weightedAverage_of_nonpos items sel h,
   fun h => weightedAverage_bounds items sel hw hs h⟩

/-- Claim C6 witness: the amended theorem applied to Scenario C (two equal
weights, liquidation thresholds 0.80 and 0.90), whose weighted average
evaluates to the simple average 0.85. -/
theorem C6_witness :
    weightedAverage [exEqA, exEqB] (fun a => a.liqThreshold) = .fin (85 / 100) ∧
    (∃ r, weightedAverage [exEqA, exEqB] (fun a => a.liqThreshold) = .fin r ∧
      (∃ a ∈ [exEqA, exEqB], jsN a.liqThreshold ≤ r) ∧
      (∃ b ∈ [exEqA, exEqB], r ≤ jsN b.liqThreshold)) := by
  constructor
  · norm_num [weightedAverage, totalUsdValue, exEqA, exEqB, jadd, jmul, jdiv, jleb, jltb]
  · refine (C6_weightedAverage_amended [exEqA, exEqB] (fun a => a.liqThreshold) ?_ ?_).2 ?_
    · intro a ha
      rcases List.mem_cons.mp ha with rfl | ha2
      · exact ⟨1000, rfl, by norm_num⟩
      · rcases List.mem_cons.mp ha2 with rfl | ha3
        · exact ⟨1000, rfl, by norm_num⟩
        · exact absurd ha3 (List.not_mem_nil a)
    · intro a ha
      rcases List.mem_cons.mp ha with rfl | ha2
      · exact ⟨8 / 10, rfl⟩
      · rcases List.mem_cons.mp ha2 with rfl | ha3
        · exact ⟨9 / 10, rfl⟩
        · exact absurd ha3 (List.not_mem_nil a)
    · norm_num [totalUsdValue, exEqA, exEqB, jadd, jgtb, jltb]

lemma ne_true_of_eq_false {c : Bool} (h : c = false) : ¬(c = true) := by
  rw [h]
  simp

/-- Claim C3 counterexample: a loan whose numeric fields are all finite or
infinite (none NaN) — here both totals are +Infinity — produces
`equity = Infinity - Infinity = NaN` in the returned record. -/
theorem C3_counterexample :
    exLoanInfTotals.totalSuppliedUsd ≠ .nan ∧
    exLoanInfTotals.totalBorrowedUsd ≠ .nan ∧
    exLoanInfTotals.borrowed.AllFinite ∧
    (∀ a ∈ exLoanInfTotals.supplied, a.AllFinite) ∧
    (computeLoanMetrics (some exLoanInfTotals)).equity = .nan := by
  refine ⟨by simp [exLoanInfTotals], by simp [exLoanInfTotals],
    ⟨rfl, rfl, rfl, rfl, rfl, rfl, rfl⟩, ?_, ?_⟩
  · intro a ha
    exact absurd ha (List.not_mem_nil a)
  · rw [clm_equity]
    rfl

/-- Claim C3 (amended): for every loan position whose numeric fields are all
finite, `computeLoanMetrics` (a total function, so it never raises) returns a
record none of whose numeric fields is NaN — every division is guarded and
degrades to 0 or +Infinity instead. -/
theorem C3_no_nan_of_finite (loan : LoanPosition) (h : loan.AllFinite) :
    (computeLoanMetrics (some loan)).NoNaNField := by
  obtain ⟨hb, hsup, hts, htb⟩ := h
  obtain ⟨s, hs⟩ := JNum.isFinite_iff.mp hts
  obtain ⟨d, hd⟩ := JNum.isFinite_iff.mp htb
  obtain ⟨hba, hbp, hbv, hbm, hbt, hbs, hbr⟩ := hb
  obtain ⟨b, hbr'⟩ := JNum.isFinite_iff.mp hbr
  have hwq : ∀ a ∈ loan.supplied, ∃ q, a.usdValue = .fin q := fun a ha =>
    JNum.isFinite_iff.mp ((hsup a ha).2.2.1)
  obtain ⟨m, hm⟩ := weightedAverage_fin loan.supplied (fun a => a.maxLTV) hwq
    (fun a ha => JNum.isFinite_iff.mp (hsup a ha).2.2.2.1)
  obtain ⟨t, ht⟩ := weightedAverage_fin loan.supplied (fun a => a.liqThreshold) hwq
    (fun a ha => JNum.isFinite_iff.mp (hsup a ha).2.2.2.2.1)
  obtain ⟨r, hr⟩ := weightedAverage_fin loan.supplied (fun a => a.supplyRate) hwq
    (fun a ha => JNum.isFinite_iff.mp (hsup a ha).2.2.2.2.2.1)
  have hprim : ∃ u pxv pv : ℚ,
      (computeLoanMetrics (some loan)).units = .fin u ∧
      (computeLoanMetrics (some loan)).px = .fin pxv ∧
      ((pickPrimary loan.supplied).map (fun p => p.usdValue)).getD (.fin 0) = .fin pv := by
    cases hsupl : loan.supplied with
    | nil =>
      exact ⟨0, 0, 0, by rw [clm_units, hsupl]; rfl, by rw [clm_px, hsupl]; rfl, rfl⟩
    | cons a0 rest =>
      have hp : pickPrimary loan.supplied = some (pickFold a0 rest) := by
        rw [hsupl]
        rfl
      have hmem : pickFold a0 rest ∈ loan.supplied := by
        rw [hsupl]
        exact pickFold_mem a0 rest
      obtain ⟨hpa, hpp, hpv, _⟩ := hsup _ hmem
      obtain ⟨u, hu⟩ := JNum.isFinite_iff.mp hpa
      obtain ⟨pxv, hpx⟩ := JNum.isFinite_iff.mp hpp
      obtain ⟨pv, hpv'⟩ := JNum.isFinite_iff.mp hpv
      refine ⟨u, pxv, pv, ?_, ?_, ?_⟩
      · rw [clm_units, hp]
        simpa using hu
      · rw [clm_px, hp]
        simpa using hpx
      · simpa [pickPrimary] using hpv'
  obtain ⟨u, pxv, pv, hu, hpx, hpv⟩ := hprim
  have hCAL : (∃ c, (computeLoanMetrics (some loan)).collateralUSDAtLiq = .fin c) ∨
      (computeLoanMetrics (some loan)).collateralUSDAtLiq = .inf := by
    rw [clm_collateralUSDAtLiq, ht, hd]
    cases hgt : jgtb (JNum.fin t) (JNum.fin 0) with
    | false =>
      right
      simp
    | true =>
      left
      refine ⟨d / t, ?_⟩
      rw [if_pos rfl]
      exact jdiv_fin d t (ne_of_gt ((jgtb_fin_iff t 0).mp hgt))
  have hSE : (computeLoanMetrics (some loan)).supplyEarnUSD = .fin (s * r) := by
    rw [clm_supplyEarnUSD, hs, hr, jmul_fin]
  have hBC : (computeLoanMetrics (some loan)).borrowCostUSD = .fin (d * b) := by
    rw [clm_borrowCostUSD, hd, hbr', jmul_fin]
  have hDE : (computeLoanMetrics (some loan)).deployEarnUSD = .fin (d * 0) := by
    rw [clm_deployEarnUSD, hd, jmul_fin]
  have hNE : (computeLoanMetrics (some loan)).netEarnUSD = .fin (s * r + d * 0 - d * b) := by
    rw [clm_netEarnUSD, hSE, hDE, hBC, jadd_fin, jsub_fin]
  have hMB : (computeLoanMetrics (some loan)).maxBorrowByLTV = .fin (s * m) := by
    rw [clm_maxBorrowByLTV, hs, hm, jmul_fin]
  refine ⟨?_, ?_, ?_, ?_, ?_, ?_, ?_, ?_, ?_, ?_, ?_, ?_, ?_, ?_, ?_, ?_, ?_, ?_, ?_, ?_,
    ?_, ?_, ?_, ?_, ?_, ?_, ?_⟩
  · rw [hu]
    simp
  · rw [hpx]
    simp
  · rw [clm_debt, hd]
    simp
  · rw [clm_collateralUSD, hs]
    simp
  · rw [clm_equity, hs, hd, jsub_fin]
    simp
  · rw [clm_ltv, hs, hd]
    cases hgs : jgtb (JNum.fin s) (JNum.fin 0) with
    | false =>
      simp
    | true =>
      rw [if_pos rfl, jdiv_fin _ _ (ne_of_gt ((jgtb_fin_iff s 0).mp hgs))]
      simp
  · rw [clm_leverage, hs, hd, jsub_fin]
    cases hge : jgtb (JNum.fin (s - d)) (JNum.fin 0) with
    | false =>
      simp
    | true =>
      rw [if_pos rfl, jdiv_fin _ _ (ne_of_gt ((jgtb_fin_iff (s - d) 0).mp hge))]
      simp
  · rw [clm_healthFactor, hs, ht, hd, jmul_fin]
    cases hgd : jgtb (JNum.fin d) (JNum.fin 0) with
    | false =>
      simp
    | true =>
      rw [if_pos rfl, jdiv_fin _ _ (ne_of_gt ((jgtb_fin_iff d 0).mp hgd))]
      simp
  · rw [clm_liqPrice, ← clm_units, hu, hs, hpv]
    cases hgu : jgtb (JNum.fin u) (JNum.fin 0) with
    | false =>
      simp
    | true =>
      rw [if_pos rfl]
      rcases hCAL with ⟨c, hc⟩ | hc
      · rw [hc, jsub_fin, jsub_fin, jdiv_fin _ _ (ne_of_gt ((jgtb_fin_iff u 0).mp hgu))]
        simp
      · rw [hc, jsub_fin]
        have h1 : jsub JNum.inf (JNum.fin (s - pv)) = JNum.inf := rfl
        rw [h1]
        have h2 : jdiv JNum.inf (JNum.fin u) = if 0 ≤ u then JNum.inf else JNum.ninf := rfl
        rw [h2]
        rcases le_or_lt 0 u with h3 | h3
        · rw [if_pos h3]
          simp
        · rw [if_neg (not_le.mpr h3)]
          simp
  · rcases hCAL with ⟨c, hc⟩ | hc
    · rw [hc]
      simp
    · rw [hc]
      simp
  · rw [clm_ltvAtLiq, hd]
    rcases hCAL with ⟨c, hc⟩ | hc
    · rw [hc]
      cases hgc : jgtb (JNum.fin c) (JNum.fin 0) with
      | false =>
        simp
      | true =>
        rw [if_pos rfl, jdiv_fin _ _ (ne_of_gt ((jgtb_fin_iff c 0).mp hgc))]
        simp
    · rw [hc]
      have hg1 : jgtb JNum.inf (JNum.fin 0) = true := rfl
      rw [if_pos hg1]
      have hg2 : jdiv (JNum.fin d) JNum.inf = JNum.fin 0 := rfl
      rw [hg2]
      simp
  · rw [clm_priceDropToLiq, hpx]
    cases hgp : jgtb (JNum.fin pxv) (JNum.fin 0) with
    | false =>
      simp
    | true =>
      cases hfin2 : (computeLoanMetrics (some loan)).liqPrice.isFinite with
      | false =>
        simp
      | true =>
        obtain ⟨lp, hlp⟩ := JNum.isFinite_iff.mp hfin2
        rw [hlp, if_pos (show (true && true) = true from rfl), jsub_fin,
          jdiv_fin _ _ (ne_of_gt ((jgtb_fin_iff pxv 0).mp hgp))]
        simp
  · rw [hSE]
    simp
  · rw [hBC]
    simp
  · rw [hDE]
    simp
  · rw [hNE]
    simp
  · rw [clm_netAPYOnEquity, clm_equity, hs, hd, jsub_fin, hNE]
    cases hge : jgtb (JNum.fin (s - d)) (JNum.fin 0) with
    | false =>
      simp
    | true =>
      rw [if_pos rfl, jdiv_fin _ _ (ne_of_gt ((jgtb_fin_iff (s - d) 0).mp hge))]
      simp
  · rw [hMB]
    simp
  · rw [clm_borrowHeadroom, hMB, hd, jsub_fin]
    simp
  · rw [clm_borrowPowerUsed, hMB, hd]
    cases hgm : jgtb (JNum.fin (s * m)) (JNum.fin 0) with
    | false =>
      simp
    | true =>
      rw [if_pos rfl, jdiv_fin _ _ (ne_of_gt ((jgtb_fin_iff (s * m) 0).mp hgm))]
      simp
  · rw [clm_equityMoveFor10Pct]
    cases hfl : (computeLoanMetrics (some loan)).leverage.isFinite with
    | false =>
      simp
    | true =>
      obtain ⟨l, hl⟩ := JNum.isFinite_iff.mp hfl
      rw [if_pos rfl, hl, jmul_fin]
      simp
  · rw [clm_collateralBufferUSD, hs]
    rcases hCAL with ⟨c, hc⟩ | hc
    · rw [hc, jsub_fin]
      simp
    · rw [hc]
      have h1 : jsub (JNum.fin s) JNum.inf = JNum.ninf := rfl
      rw [h1]
      simp
  · rw [clm_ltvMax, hm]
    simp
  · rw [clm_lt, ht]
    simp
  · rw [clm_rSupply, hr]
    simp
  · rw [clm_rBorrow, hbr']
    simp
  · rw [clm_rDeploy]
    simp

/-- Claim C3 witness: the amended theorem applied to the Scenario A loan (all
fields finite), whose record has no NaN field. -/
theorem C3_witness :
    exLoanA.AllFinite ∧ (computeLoanMetrics (some exLoanA)).NoNaNField := by
  have hall : exLoanA.AllFinite := by
    refine ⟨⟨rfl, rfl, rfl, rfl, rfl, rfl, rfl⟩, ?_, rfl, rfl⟩
    intro a ha
    have : a = exAssetA := by simpa [exLoanA] using ha
    rw [this]
    exact ⟨rfl, rfl, rfl, rfl, rfl, rfl, rfl⟩
  exact ⟨hall, C3_no_nan_of_finite exLoanA hall⟩

/-! ## Portfolio aggregation lemmas -/

lemma aggregate_loanCount (metrics : List Computed) :
    (aggregatePortfolio metrics).loanCount = metrics.length := rfl

lemma aggregate_totalDebt (metrics : List Computed) :
    (aggregatePortfolio metrics).totalDebt = jsum (metrics.map (fun c => c.debt)) := rfl

lemma aggregate_totalCollateral (metrics : List Computed) :
    (aggregatePortfolio metrics).totalCollateral =
      jsum (metrics.map (fun c => c.collateralUSD)) := rfl

lemma aggregate_totalNetWorth (metrics : List Computed) :
    (aggregatePortfolio metrics).totalNetWorth = jsum (metrics.map (fun c => c.equity)) := rfl

lemma aggregate_avgHF (metrics : List Computed) :
    (aggregatePortfolio metrics).averageHealthFactor =
      (if 0 < ((metrics.map (fun c => c.healthFactor)).filter (fun x => x.isFinite)).length
       then jdiv (jsum ((metrics.map (fun c => c.healthFactor)).filter (fun x => x.isFinite)))
         (.fin ((metrics.map (fun c => c.healthFactor)).filter (fun x => x.isFinite)).length)
       else .inf) := rfl

/-- Filtering a list of JS numbers by `Number.isFinite` keeps exactly the
finite entries, as rationals. -/
lemma filter_isFinite_eq (ms : List JNum) :
    ms.filter (fun x => x.isFinite) = (ms.filterMap JNum.toFinQ).map JNum.fin := by
  induction ms with
  | nil => rfl
  | cons x t ih =>
    cases x with
    | nan =>
      rw [show List.filter (fun x => x.isFinite) (JNum.nan :: t) =
        List.filter (fun x => x.isFinite) t from rfl]
      rw [show List.filterMap JNum.toFinQ (JNum.nan :: t) =
        List.filterMap JNum.toFinQ t from rfl]
      exact ih
    | inf =>
      rw [show List.filter (fun x => x.isFinite) (JNum.inf :: t) =
        List.filter (fun x => x.isFinite) t from rfl]
      rw [show List.filterMap JNum.toFinQ (JNum.inf :: t) =
        List.filterMap JNum.toFinQ t from rfl]
      exact ih
    | ninf =>
      rw [show List.filter (fun x => x.isFinite) (JNum.ninf :: t) =
        List.filter (fun x => x.isFinite) t from rfl]
      rw [show List.filterMap JNum.toFinQ (JNum.ninf :: t) =
        List.filterMap JNum.toFinQ t from rfl]
      exact ih
    | fin q =>
      rw [show List.filter (fun x => x.isFinite) (JNum.fin q :: t) =
        JNum.fin q :: List.filter (fun x => x.isFinite) t from rfl]
      rw [show List.filterMap JNum.toFinQ (JNum.fin q :: t) =
        q :: List.filterMap JNum.toFinQ t from rfl]
      rw [List.map_cons, ih]

/-- Claim C5: the portfolio's average health factor is the arithmetic mean of
exactly the finite per-loan health factors, and +Infinity when none is
finite. -/
theorem C5_average_health_factor (metrics : List Computed) (_hne : metrics ≠ []) :
    (aggregatePortfolio metrics).averageHealthFactor =
      (if metrics.filterMap (fun c => c.healthFactor.toFinQ) = [] then .inf
       else .fin ((metrics.filterMap (fun c => c.healthFactor.toFinQ)).sum /
         (metrics.filterMap (fun c => c.healthFactor.toFinQ)).length)) := by
  rw [aggregate_avgHF]
  set qs : List ℚ := metrics.filterMap (fun c => c.healthFactor.toFinQ) with hqs
  have hfil : (metrics.map (fun c => c.healthFactor)).filter (fun x => x.isFinite) =
      qs.map JNum.fin := by
    rw [filter_isFinite_eq, List.filterMap_map]
    rfl
  rw [hfil]
  have hsum : jsum (qs.map JNum.fin) = .fin qs.sum := by
    have := jsum_fin (qs.map JNum.fin) (by
      intro x hx
      obtain ⟨q, _, rfl⟩ := List.mem_map.mp hx
      exact ⟨q, rfl⟩)
    rw [this]
    congr 1
    rw [List.map_map]
    have : qs.map (jsN ∘ JNum.fin) = qs.map id := by
      apply List.map_congr_left
      intro q _
      rfl
    rw [this, List.map_id]
  by_cases hq : qs = []
  · rw [hq]
    simp
  · have hlen : 0 < (qs.map JNum.fin).length := by
      rw [List.length_map]
      exact List.length_pos.mpr hq
    rw [if_pos hlen, if_neg hq, hsum, List.length_map]
    have hlq : ((qs.length : ℚ)) ≠ 0 :=
      Nat.cast_ne_zero.mpr (Nat.pos_iff_ne_zero.mp (List.length_pos.mpr hq))
    rw [jdiv_fin _ _ hlq]

/-- Claim C5 witness: a two-loan portfolio with health factors 1.8 and
+Infinity averages to 1.8 — the infinite entry is excluded. -/
theorem C5_witness :
    ([computeLoanMetrics (some exLoanHF18), computeLoanMetrics none] : List Computed) ≠ [] ∧
    (aggregatePortfolio
      [computeLoanMetrics (some exLoanHF18), computeLoanMetrics none]).averageHealthFactor =
      .fin (9 / 5) := by
  have h1 : (computeLoanMetrics (some exLoanHF18)).healthFactor = .fin (9 / 5) := by
    rw [clm_healthFactor]
    norm_num [weightedAverage, totalUsdValue, exLoanHF18, exEqB, exDebtA, jadd, jmul, jdiv,
      jgtb, jltb, jleb]
  have h2 : (computeLoanMetrics none).healthFactor = .inf := rfl
  refine ⟨by simp, ?_⟩
  rw [C5_average_health_factor _ (by simp)]
  rw [List.filterMap_cons, List.filterMap_cons, List.filterMap_nil, h1, h2]
  norm_num [JNum.toFinQ]

/-! ## Position-builder lemmas -/

lemma addToGroup_cons (k : String) (g : List RawUserReserveWithMarket)
    (rest : List (String × List RawUserReserveWithMarket)) (r : RawUserReserveWithMarket) :
    addToGroup ((k, g) :: rest) r =
      if k = r.__marketName then (k, g ++ [r]) :: rest
      else (k, g) :: addToGroup rest r := rfl

lemma addToGroup_keys (acc : List (String × List RawUserReserveWithMarket))
    (r : RawUserReserveWithMarket) :
    (addToGroup acc r).map Prod.fst =
      if r.__marketName ∈ acc.map Prod.fst then acc.map Prod.fst
      else acc.map Prod.fst ++ [r.__marketName] := by
  induction acc with
  | nil => simp [addToGroup]
  | cons p rest ih =>
    obtain ⟨k0, g0⟩ := p
    by_cases hk : k0 = r.__marketName
    · simp [addToGroup_cons, hk]
    · by_cases hm : r.__marketName ∈ rest.map Prod.fst
      · simp [addToGroup_cons, hk, Ne.symm hk, ih, hm]
      · simp [addToGroup_cons, hk, Ne.symm hk, ih, hm]

lemma addToGroup_nodup (acc : List (String × List RawUserReserveWithMarket))
    (r : RawUserReserveWithMarket) (h : (acc.map Prod.fst).Nodup) :
    ((addToGroup acc r).map Prod.fst).Nodup := by
  rw [addToGroup_keys]
  by_cases hm : r.__marketName ∈ acc.map Prod.fst
  · rw [if_pos hm]
    exact h
  · rw [if_neg hm]
    simp [List.nodup_append, h, hm]

lemma addToGroup_key_mem (acc : List (String × List RawUserReserveWithMarket))
    (r : RawUserReserveWithMarket) (k : String) (h : ∃ g, (k, g) ∈ acc) :
    ∃ g, (k, g) ∈ addToGroup acc r := by
  induction acc with
  | nil =>
    obtain ⟨g, hg⟩ := h
    exact absurd hg (List.not_mem_nil _)
  | cons p rest ih =>
    obtain ⟨k0, g0⟩ := p
    obtain ⟨g, hg⟩ := h
    by_cases hk : k0 = r.__marketName
    · rcases List.mem_cons.mp hg with heq | hmem
      · have h1 : k = k0 := ((Prod.mk.injEq _ _ _ _).mp heq).1
        refine ⟨g0 ++ [r], ?_⟩
        rw [addToGroup_cons, if_pos hk, h1]
        exact List.mem_cons_self _ _
      · refine ⟨g, ?_⟩
        rw [addToGroup_cons, if_pos hk]
        exact List.mem_cons_of_mem _ hmem
    · rcases List.mem_cons.mp hg with heq | hmem
      · refine ⟨g, ?_⟩
        rw [addToGroup_cons, if_neg hk]
        exact List.mem_cons.mpr (Or.inl heq)
      · obtain ⟨g2, hg2⟩ := ih ⟨g, hmem⟩
        refine ⟨g2, ?_⟩
        rw [addToGroup_cons, if_neg hk]
        exact List.mem_cons_of_mem _ hg2

lemma addToGroup_self_mem (acc : List (String × List RawUserReserveWithMarket))
    (r : RawUserReserveWithMarket) :
    ∃ g, (r.__marketName, g) ∈ addToGroup acc r := by
  induction acc with
  | nil =>
    refine ⟨[r], ?_⟩
    rw [show addToGroup [] r = [(r.__marketName, [r])] from rfl]
    exact List.mem_cons_self _ _
  | cons p rest ih =>
    obtain ⟨k0, g0⟩ := p
    by_cases hk : k0 = r.__marketName
    · refine ⟨g0 ++ [r], ?_⟩
      rw [addToGroup_cons, if_pos hk, ← hk]
      exact List.mem_cons_self _ _
    · obtain ⟨g2, hg2⟩ := ih
      refine ⟨g2, ?_⟩
      rw [addToGroup_cons, if_neg hk]
      exact List.mem_cons_of_mem _ hg2

lemma mem_addToGroup (r : RawUserReserveWithMarket) :
    ∀ acc : List (String × List RawUserReserveWithMarket), (acc.map Prod.fst).Nodup →
      ∀ kg ∈ addToGroup acc r,
        (kg ∈ acc ∧ kg.1 ≠ r.__marketName) ∨
        (∃ g, (kg.1, g) ∈ acc ∧ kg.1 = r.__marketName ∧ kg.2 = g ++ [r]) ∨
        (kg = (r.__marketName, [r]) ∧ ∀ g, (r.__marketName, g) ∉ acc) := by
  intro acc
  induction acc with
  | nil =>
    intro _ kg hkg
    right
    right
    refine ⟨?_, ?_⟩
    · simpa [show addToGroup [] r = [(r.__marketName, [r])] from rfl] using hkg
    · intro g hg
      exact absurd hg (List.not_mem_nil _)
  | cons p rest ih =>
    obtain ⟨k0, g0⟩ := p
    intro hnd kg hkg
    have hnd2 : (k0 :: rest.map Prod.fst).Nodup := by simpa using hnd
    have hk0nin : k0 ∉ rest.map Prod.fst := (List.nodup_cons.mp hnd2).1
    have hndrest : (rest.map Prod.fst).Nodup := (List.nodup_cons.mp hnd2).2
    by_cases hk : k0 = r.__marketName
    · rw [addToGroup_cons, if_pos hk] at hkg
      rcases List.mem_cons.mp hkg with heq | hmem
      · right
        left
        refine ⟨g0, ?_, ?_, ?_⟩
        · rw [heq]
          exact List.mem_cons_self _ _
        · rw [heq]
          exact hk
        · rw [heq]
      · left
        refine ⟨List.mem_cons_of_mem _ hmem, ?_⟩
        intro hcon
        apply hk0nin
        rw [hk, ← hcon]
        exact List.mem_map_of_mem Prod.fst hmem
    · rw [addToGroup_cons, if_neg hk] at hkg
      rcases List.mem_cons.mp hkg with heq | hmem
      · left
        refine ⟨by rw [heq]; exact List.mem_cons_self _ _, ?_⟩
        rw [heq]
        exact hk
      · rcases ih hndrest kg hmem with ⟨hmm, hne⟩ | ⟨g, hg, hkey, hval⟩ | ⟨heq2, hnomem⟩
        · exact Or.inl ⟨List.mem_cons_of_mem _ hmm, hne⟩
        · exact Or.inr (Or.inl ⟨g, List.mem_cons_of_mem _ hg, hkey, hval⟩)
        · right
          right
          refine ⟨heq2, ?_⟩
          intro g hgmem
          rcases List.mem_cons.mp hgmem with heq3 | hmem3
          · have h3 : r.__marketName = k0 := ((Prod.mk.injEq _ _ _ _).mp heq3).1
            exact hk h3.symm
          · exact hnomem g hmem3

/-- Invariant of the grouping fold: every accumulated group is exactly the
filter of the already-processed records by its market key. -/
lemma groupBy_loop (rs : List RawUserReserveWithMarket) :
    ∀ (acc : List (String × List RawUserReserveWithMarket))
      (pro : List RawUserReserveWithMarket),
      (∀ kg ∈ acc, kg.2 = pro.filter (fun x => x.__marketName == kg.1)) →
      (∀ x ∈ pro, ∃ g, (x.__marketName, g) ∈ acc) →
      (acc.map Prod.fst).Nodup →
      ∀ kg ∈ rs.foldl addToGroup acc,
        kg.2 = (pro ++ rs).filter (fun x => x.__marketName == kg.1) := by
  induction rs with
  | nil =>
    intro acc pro h1 _ _ kg hkg
    simpa using h1 kg hkg
  | cons r rest ih =>
    intro acc pro h1 h2 h3 kg hkg
    have inv1 : ∀ kg2 ∈ addToGroup acc r,
        kg2.2 = (pro ++ [r]).filter (fun x => x.__marketName == kg2.1) := by
      intro kg2 hkg2
      rcases mem_addToGroup r acc h3 kg2 hkg2 with ⟨hmem, hne⟩ | ⟨g, hgmem, hkey, hval⟩ |
        ⟨heq2, hnomem⟩
      · have hb : (r.__marketName == kg2.1) = false := beq_eq_false_iff_ne.mpr (Ne.symm hne)
        rw [List.filter_append, h1 kg2 hmem]
        simp [List.filter_cons, hb]
      · have hb : (r.__marketName == kg2.1) = true := by
          rw [hkey]
          exact beq_self_eq_true _
        have hfr : List.filter (fun x => x.__marketName == kg2.1) [r] = [r] := by
          simp [List.filter_cons, hb]
        have hg2 : g = pro.filter (fun x => x.__marketName == kg2.1) := h1 (kg2.1, g) hgmem
        rw [hval, List.filter_append, hfr, ← hg2]
      · have hpro : pro.filter (fun x => x.__marketName == r.__marketName) = [] := by
          rw [List.filter_eq_nil_iff]
          intro x hx hbeq
          have hxeq : x.__marketName = r.__marketName := by simpa using hbeq
          obtain ⟨g, hg⟩ := h2 x hx
          rw [hxeq] at hg
          exact hnomem g hg
        rw [heq2]
        rw [List.filter_append, hpro]
        simp [List.filter_cons]
    have inv2 : ∀ x ∈ pro ++ [r], ∃ g, (x.__marketName, g) ∈ addToGroup acc r := by
      intro x hx
      rcases List.mem_append.mp hx with hx1 | hx2
      · exact addToGroup_key_mem acc r _ (h2 x hx1)
      · rcases List.mem_cons.mp hx2 with heqx | hx3
        · rw [heqx]
          exact addToGroup_self_mem acc r
        · exact absurd hx3 (List.not_mem_nil x)
    have inv3 : ((addToGroup acc r).map Prod.fst).Nodup := addToGroup_nodup acc r h3
    have hres := ih (addToGroup acc r) (pro ++ [r]) inv1 inv2 inv3 kg (by simpa using hkg)
    simpa [List.append_assoc] using hres

/-- Every group produced by `groupByMarket` is exactly the reserves of its
market, in input order. -/
lemma groupByMarket_filter (reserves : List RawUserReserveWithMarket) :
    ∀ kg ∈ groupByMarket reserves,
      kg.2 = reserves.filter (fun x => x.__marketName == kg.1) := by
  intro kg hkg
  have := groupBy_loop reserves [] [] (by intro kg2 h; exact absurd h (List.not_mem_nil _))
    (by intro x h; exact absurd h (List.not_mem_nil x)) (by simp) kg hkg
  simpa using this

lemma mem_emitLoans (mk : String) (collat : List AssetPosition) :
    ∀ (i : ℕ) (bs : List AssetPosition) (lp : LoanPosition), lp ∈ emitLoans mk collat i bs →
      lp.marketName = mk ∧ lp.supplied = collat ∧ lp.borrowed ∈ bs ∧
      lp.totalBorrowedUsd = lp.borrowed.usdValue ∧
      lp.totalSuppliedUsd = totalUsdValue collat := by
  intro i bs
  induction bs generalizing i with
  | nil =>
    intro lp hlp
    exact absurd hlp (List.not_mem_nil lp)
  | cons b rest ih =>
    intro lp hlp
    rcases List.mem_cons.mp hlp with rfl | hlp2
    · exact ⟨rfl, rfl, List.mem_cons_self _ _, rfl, rfl⟩
    · obtain ⟨h1, h2, h3, h4, h5⟩ := ih (i + 1) lp hlp2
      exact ⟨h1, h2, List.mem_cons_of_mem b h3, h4, h5⟩

lemma mem_marketBorrowed (group : List RawUserReserveWithMarket)
    (prices : String → Option JNum) (b : AssetPosition) (hb : b ∈ marketBorrowed group prices) :
    ∃ q, b.amount = .fin q ∧ 0 < q := by
  obtain ⟨hmem, hgt⟩ := List.mem_filter.mp hb
  obtain ⟨e, _, heq⟩ := List.mem_map.mp hmem
  have hamt : b.amount = .fin (parseBalance e.currentTotalDebt e.reserve.decimals) := by
    rw [← heq]
    rfl
  refine ⟨_, hamt, ?_⟩
  rw [hamt] at hgt
  exact (jgtb_fin_iff _ 0).mp hgt

lemma parseBalance_zero (n : ℕ) : parseBalance (.fin 0) n = 0 := by
  have h10 : ((10 : ℚ) ^ n) ≠ 0 := pow_ne_zero n (by norm_num)
  simp [parseBalance, jdiv, h10, jsN]

lemma marketBorrowed_nil (group : List RawUserReserveWithMarket)
    (prices : String → Option JNum) (h : ∀ e ∈ group, e.currentTotalDebt = .fin 0) :
    marketBorrowed group prices = [] := by
  apply List.filter_eq_nil_iff.mpr
  intro b hb hgt
  obtain ⟨e, he, heq⟩ := List.mem_map.mp hb
  have hamt : b.amount = .fin (parseBalance e.currentTotalDebt e.reserve.decimals) := by
    rw [← heq]
    rfl
  rw [hamt, h e he, parseBalance_zero] at hgt
  exact lt_irrefl 0 ((jgtb_fin_iff 0 0).mp hgt)

lemma flatMap_eq_nil_of {α β : Type} (l : List α) (f : α → List β)
    (h : ∀ x ∈ l, f x = []) : l.flatMap f = [] := by
  induction l with
  | nil => rfl
  | cons a t ih =>
    rw [List.flatMap_cons, h a (List.mem_cons_self a t),
      ih (fun x hx => h x (List.mem_cons_of_mem a hx))]
    rfl

/-- Claim C7: every emitted LoanPosition has a borrowed amount > 0, carries
exactly its market's eligible collateral (supplied entries with positive
amount and collateral enabled, shared by all loans of the market), and totals
equal to the borrowed usd value resp. the sum of the collateral usd values; a
record set with zero debt on every record yields no loans. -/
theorem C7_build_invariants (reserves : List RawUserReserveWithMarket)
    (prices : String → Option JNum) :
    (∀ lp ∈ buildLoanPositions reserves prices,
      (∃ q, lp.borrowed.amount = .fin q ∧ 0 < q) ∧
      lp.supplied = eligibleCollateral
        (reserves.filter (fun x => x.__marketName == lp.marketName)) prices ∧
      lp.totalBorrowedUsd = lp.borrowed.usdValue ∧
      lp.totalSuppliedUsd = totalUsdValue lp.supplied ∧
      (∀ lp2 ∈ buildLoanPositions reserves prices,
        lp2.marketName = lp.marketName → lp2.supplied = lp.supplied)) ∧
    ((∀ x ∈ reserves, x.currentTotalDebt = .fin 0) →
      buildLoanPositions reserves prices = []) := by
  have main : ∀ lp ∈ buildLoanPositions reserves prices,
      (∃ q, lp.borrowed.amount = .fin q ∧ 0 < q) ∧
      lp.supplied = eligibleCollateral
        (reserves.filter (fun x => x.__marketName == lp.marketName)) prices ∧
      lp.totalBorrowedUsd = lp.borrowed.usdValue ∧
      lp.totalSuppliedUsd = totalUsdValue lp.supplied := by
    intro lp hlp
    obtain ⟨kg, hkg, hlpg⟩ := List.mem_flatMap.mp hlp
    obtain ⟨hmn, hsupp, hbor, htb, hts⟩ :=
      mem_emitLoans kg.1 (eligibleCollateral kg.2 prices) 0 (marketBorrowed kg.2 prices) lp hlpg
    have hfil := groupByMarket_filter reserves kg hkg
    refine ⟨mem_marketBorrowed kg.2 prices lp.borrowed hbor, ?_, htb, ?_⟩
    · rw [hsupp, hfil, hmn]
    · rw [hts, hsupp]
  refine ⟨fun lp hlp => ⟨(main lp hlp).1, (main lp hlp).2.1, (main lp hlp).2.2.1,
    (main lp hlp).2.2.2, ?_⟩, ?_⟩
  · intro lp2 hlp2 he
    rw [(main lp2 hlp2).2.1, (main lp hlp).2.1, he]
  · intro hzero
    apply flatMap_eq_nil_of
    intro kg hkg
    have hsub : kg.2 = reserves.filter (fun x => x.__marketName == kg.1) :=
      groupByMarket_filter reserves kg hkg
    have hmb : marketBorrowed kg.2 prices = [] := by
      apply marketBorrowed_nil
      intro e he
      apply hzero
      rw [hsub] at he
      exact (List.mem_filter.mp he).1
    rw [hmb]
    rfl

/-- Claim C7 witness: the theorem applied to a one-record reserve set whose
debt is zero, which builds no loan positions. -/
theorem C7_witness :
    (∀ x ∈ [exRawSupplyOnly], x.currentTotalDebt = .fin 0) ∧
    buildLoanPositions [exRawSupplyOnly] exPrices = [] := by
  have h : ∀ x ∈ [exRawSupplyOnly], x.currentTotalDebt = JNum.fin 0 := by
    intro x hx
    rcases List.mem_cons.mp hx with heqx | hx2
    · rw [heqx]
      rfl
    · exact absurd hx2 (List.not_mem_nil x)
  exact ⟨h, (C7_build_invariants [exRawSupplyOnly] exPrices).2 h⟩

lemma list_sum_sub {α : Type} (l : List α) (f g : α → ℚ) :
    (l.map (fun x => f x - g x)).sum = (l.map f).sum - (l.map g).sum := by
  induction l with
  | nil => simp
  | cons a t ih =>
    simp only [List.map_cons, List.sum_cons, ih]
    ring

/-- Claim C10: per loan, equity = collateralUSD - debt, and the portfolio
rollup sums these fields, so totalNetWorth = totalCollateral - totalDebt. -/
theorem C10_networth_identity (loans : List LoanPosition) (hne : loans ≠ [])
    (hfin : ∀ l ∈ loans,
      l.totalSuppliedUsd.isFinite = true ∧ l.totalBorrowedUsd.isFinite = true) :
    ∃ P, portfolioOf loans = some P ∧
      P.totalNetWorth = jsub P.totalCollateral P.totalDebt ∧
      (∀ l ∈ loans, (computeLoanMetrics (some l)).equity =
        jsub (computeLoanMetrics (some l)).collateralUSD (computeLoanMetrics (some l)).debt) := by
  have hie : loans.isEmpty = false := by
    cases loans with
    | nil => exact absurd rfl hne
    | cons a t => rfl
  refine ⟨aggregatePortfolio (loans.map (fun loan => computeLoanMetrics (some loan))), ?_, ?_, ?_⟩
  · simp [portfolioOf, hie]
  · rw [aggregate_totalNetWorth, aggregate_totalCollateral, aggregate_totalDebt]
    have h1 : (loans.map (fun loan => computeLoanMetrics (some loan))).map (fun c => c.equity) =
        loans.map (fun l => jsub l.totalSuppliedUsd l.totalBorrowedUsd) := by
      rw [List.map_map]
      apply List.map_congr_left
      intro l _
      exact clm_equity l
    have h2 : (loans.map (fun loan => computeLoanMetrics (some loan))).map
          (fun c => c.collateralUSD) = loans.map (fun l => l.totalSuppliedUsd) := by
      rw [List.map_map]
      apply List.map_congr_left
      intro l _
      exact clm_collateralUSD l
    have h3 : (loans.map (fun loan => computeLoanMetrics (some loan))).map (fun c => c.debt) =
        loans.map (fun l => l.totalBorrowedUsd) := by
      rw [List.map_map]
      apply List.map_congr_left
      intro l _
      exact clm_debt l
    have hE : ∀ x ∈ loans.map (fun l => jsub l.totalSuppliedUsd l.totalBorrowedUsd),
        ∃ q, x = .fin q := by
      intro x hx
      obtain ⟨l, hl, rfl⟩ := List.mem_map.mp hx
      obtain ⟨hs2, hd2⟩ := hfin l hl
      obtain ⟨sv, hsv⟩ := JNum.isFinite_iff.mp hs2
      obtain ⟨dv, hdv⟩ := JNum.isFinite_iff.mp hd2
      exact ⟨sv - dv, by rw [hsv, hdv, jsub_fin]⟩
    have hC : ∀ x ∈ loans.map (fun l => l.totalSuppliedUsd), ∃ q, x = .fin q := by
      intro x hx
      obtain ⟨l, hl, rfl⟩ := List.mem_map.mp hx
      exact JNum.isFinite_iff.mp (hfin l hl).1
    have hD : ∀ x ∈ loans.map (fun l => l.totalBorrowedUsd), ∃ q, x = .fin q := by
      intro x hx
      obtain ⟨l, hl, rfl⟩ := List.mem_map.mp hx
      exact JNum.isFinite_iff.mp (hfin l hl).2
    rw [h1, h2, h3, jsum_fin _ hE, jsum_fin _ hC, jsum_fin _ hD, jsub_fin]
    congr 1
    rw [List.map_map, List.map_map, List.map_map]
    have h4 : loans.map (jsN ∘ fun l => jsub l.totalSuppliedUsd l.totalBorrowedUsd) =
        loans.map (fun l => jsN l.totalSuppliedUsd - jsN l.totalBorrowedUsd) := by
      apply List.map_congr_left
      intro l hl
      obtain ⟨hs2, hd2⟩ := hfin l hl
      obtain ⟨sv, hsv⟩ := JNum.isFinite_iff.mp hs2
      obtain ⟨dv, hdv⟩ := JNum.isFinite_iff.mp hd2
      show jsN (jsub l.totalSuppliedUsd l.totalBorrowedUsd) = _
      rw [hsv, hdv, jsub_fin, jsN_fin, jsN_fin, jsN_fin]
    rw [h4]
    exact list_sum_sub loans (fun l => jsN l.totalSuppliedUsd)
      (fun l => jsN l.totalBorrowedUsd)
  · intro l _
    rfl

/-- Claim C10 witness: the identity holds on the one-loan Scenario A
portfolio. -/
theorem C10_witness :
    ([exLoanA] : List LoanPosition) ≠ [] ∧
    ∃ P, portfolioOf [exLoanA] = some P ∧
      P.totalNetWorth = jsub P.totalCollateral P.totalDebt := by
  have hfin1 : ∀ l ∈ [exLoanA],
      l.totalSuppliedUsd.isFinite = true ∧ l.totalBorrowedUsd.isFinite = true := by
    intro l hl
    rcases List.mem_cons.mp hl with heq | h2
    · rw [heq]
      exact ⟨rfl, rfl⟩
    · exact absurd h2 (List.not_mem_nil l)
  obtain ⟨P, hP, hid, _⟩ := C10_networth_identity [exLoanA] (by simp) hfin1
  exact ⟨by simp, P, hP, hid⟩

end AaveDash
